import Mathlib

set_option maxRecDepth 10000

/-!
Verification of the receipts payment core: the sender-side `ReceiptPool`
(`src/pool.rs`) and the receiver-side voucher builder (`src/voucher.rs`).

Machine integers are modelled as `Nat`.  `U256` arithmetic follows the
`primitive_types` crate: `+` and `-` panic on overflow/underflow (modelled by
`Option`, `none` standing for a panic), `saturating_add` saturates at
`2 ^ 256 - 1`.  Byte strings are `List Nat` whose encoders only emit values
below 256.  The secp256k1 and keccak primitives are library code outside this
repository; they enter as an abstract `Crypto` record of functions, with the
library guarantees (output lengths, recovery-id range) stated as the
`GoodCrypto` hypothesis.
-/

deriving instance DecidableEq for Except

namespace Receipts

/-- Big-endian byte encoding of `value` into exactly `n` bytes, as produced by
`U256::to_big_endian` (`n = 32`) and `u32::to_be_bytes` (`n = 4`); the value is
taken modulo `256 ^ n`, which is exact for in-range values. -/
def natToBeBytes : Nat → Nat → List Nat
  | 0, _ => []
  | k + 1, value => natToBeBytes k (value / 256) ++ [value % 256]

/-- Big-endian byte decoding, as in `U256::from_big_endian` and
`u32::from_be_bytes`. -/
def fromBeBytes (bs : List Nat) : Nat :=
  bs.foldl (fun acc b => acc * 256 + b) 0

/-- Subslice `bs[lo..hi]` of a byte string, mirroring Rust range indexing. -/
def slice (bs : List Nat) (lo hi : Nat) : List Nat :=
  (bs.drop lo).take (hi - lo)

/-- Alias for the 32-byte big-endian serialization of a `U256`
(`to_be_bytes` in pool.rs and the prelude). -/
def to_be_bytes (value : Nat) : List Nat := natToBeBytes 32 value

/-- Bound of the `U256` type. -/
def U256_BOUND : Nat := 2 ^ 256

/-- Maximum receipt id allowed by the size limit (pool.rs line 44). -/
def MAX_RECEIPT_ID : Nat := 200000

/-- Threshold for the id-exhaustion warning (pool.rs line 45). -/
def LOW_RECEIPT_CAPACITY : Nat := 170000

/-- Field offsets of the borrowed-receipt commitment, derived by chaining
ranges exactly as pool.rs lines 19-24 does:
transfer id `[0,32)`, fee `[32,64)`, receipt id `[64,68)`,
signature `[68,133)`, unlocked fee `[133,165)`. -/
def BORROWED_RECEIPT_LEN : Nat := 165

/-- Decoded `VECTOR_TRANSFER_ID_RANGE` field of a commitment. -/
def commitmentTransferId (bs : List Nat) : List Nat := slice bs 0 32

/-- Decoded `FEE_RANGE` field of a commitment. -/
def commitmentFee (bs : List Nat) : Nat := fromBeBytes (slice bs 32 64)

/-- Decoded `RECEIPT_ID_RANGE` field of a commitment. -/
def commitmentReceiptId (bs : List Nat) : Nat := fromBeBytes (slice bs 64 68)

/-- Decoded `UNLOCKED_FEE_RANGE` field of a commitment. -/
def commitmentUnlockedFee (bs : List Nat) : Nat := fromBeBytes (slice bs 133 165)

/-- PooledReceipt (pool.rs lines 97-101). -/
structure PooledReceipt where
  unlocked_fee : Nat
  receipt_id : Nat
deriving DecidableEq

/-- Transfer (pool.rs lines 49-78).  The secret key is modelled as a `Nat`. -/
structure Transfer where
  initial_collateral : Nat
  low_collateral_threshold : Nat
  remaining_collateral : Nat
  prev_receipt_id : Nat
  receipt_cache : List PooledReceipt
  signer : Nat
  vector_transfer_id : List Nat
deriving DecidableEq

/-- ReceiptPool (pool.rs lines 27-30). -/
structure ReceiptPool where
  transfers : List Transfer
deriving DecidableEq

/-- QueryStatus (pool.rs lines 90-95). -/
inductive QueryStatus where
  | Success
  | Failure
  | Unknown
deriving DecidableEq

/-- BorrowFail (pool.rs lines 103-108). -/
inductive BorrowFail where
  | InsufficientCollateral
deriving DecidableEq

/-- ReceiptBorrow (pool.rs lines 80-88). -/
structure ReceiptBorrow where
  commitment : List Nat
  low_collateral_warning : Bool
deriving DecidableEq

/-- Abstract interface to the secp256k1 / keccak library primitives used by
pool.rs and voucher.rs.  `signRecoverable` returns the 64-byte compact
signature together with the recovery id, as
`sign_recoverable` + `serialize_compact` do; `parseCompact` is
`Signature::from_compact` on the first 64 signature bytes; `verify` is
`SECP256K1.verify`; `sign65` is the prelude `sign` helper producing a 65-byte
recoverable signature (modelled from the spec since the prelude is not in
src/). -/
structure Crypto where
  keccak256 : List Nat → List Nat
  signRecoverable : Nat → List Nat → List Nat × Nat
  parseCompact : List Nat → Option (List Nat)
  verify : List Nat → List Nat → Nat → Bool
  sign65 : List Nat → Nat → List Nat

/-- Library guarantees of the crypto primitives: keccak256 yields 32 bytes,
compact signatures are 64 bytes, recovery ids are in {0, 1, 27, 28}, and the
prelude `sign` helper yields 65 bytes. -/
def GoodCrypto (C : Crypto) : Prop :=
  (∀ m, (C.keccak256 m).length = 32) ∧
  (∀ k m, (C.signRecoverable k m).1.length = 64) ∧
  (∀ k m, (C.signRecoverable k m).2 = 0 ∨ (C.signRecoverable k m).2 = 1 ∨
    (C.signRecoverable k m).2 = 27 ∨ (C.signRecoverable k m).2 = 28) ∧
  (∀ m k, (C.sign65 m k).length = 65)

/-- Concrete crypto instance used to evaluate the model on closed inputs. -/
def trivialCrypto : Crypto where
  keccak256 := fun _ => List.replicate 32 0
  signRecoverable := fun _ _ => (List.replicate 64 0, 0)
  parseCompact := fun bs => some (bs.take 64)
  verify := fun _ _ _ => true
  sign65 := fun _ _ => List.replicate 65 0

/-- Crypto instance whose compact-signature parsing fails, as
`secp256k1::Signature::from_compact` does on out-of-range scalars (for
instance 64 bytes of 0xff, whose r and s exceed the curve order). -/
def parseFailCrypto : Crypto where
  keccak256 := fun _ => List.replicate 32 0
  signRecoverable := fun _ _ => (List.replicate 64 0, 0)
  parseCompact := fun _ => none
  verify := fun _ _ _ => true
  sign65 := fun _ _ => List.replicate 65 0

/-- Recovery-id normalization of pool.rs lines 301-307: raw 0 and 1 map to 27
and 28, 27 and 28 pass through, anything else is the `panic!` arm
(modelled as `none`). -/
def normalizeRecoveryId (r : Nat) : Option Nat :=
  if r = 0 then some 27
  else if r = 1 then some 28
  else if r = 27 then some 27
  else if r = 28 then some 28
  else none

/-- Vec::swap_remove: removes the element at `i` and returns it, moving the
last element into its place; `none` when `i` is out of bounds. -/
def swapRemove (l : List α) (i : Nat) : Option (α × List α) :=
  match l[i]?, l.getLast? with
  | some x, some y => some (x, (l.set i y).dropLast)
  | _, _ => none

/-- ReceiptPool::add_transfer (pool.rs lines 134-157): idempotent in the
transfer id, otherwise appends a fresh transfer with threshold
`collateral / 4`. -/
def add_transfer (p : ReceiptPool) (signer collateral : Nat)
    (vector_transfer_id : List Nat) : ReceiptPool :=
  if p.transfers.any (fun t => t.vector_transfer_id == vector_transfer_id) then p
  else
    ⟨p.transfers ++ [{ signer := signer
                       initial_collateral := collateral
                       remaining_collateral := collateral
                       low_collateral_threshold := collateral / 4
                       receipt_cache := []
                       prev_receipt_id := 0
                       vector_transfer_id := vector_transfer_id }]⟩

/-- ReceiptPool::remove_transfer (pool.rs lines 159-167). -/
def remove_transfer (p : ReceiptPool) (vector_transfer_id : List Nat) :
    ReceiptPool :=
  match p.transfers.findIdx? (fun t => t.vector_transfer_id == vector_transfer_id) with
  | none => p
  | some i =>
    match swapRemove p.transfers i with
    | none => p
    | some (_, rest) => ⟨rest⟩

/-- Accumulator loop of ReceiptPool::select_transfer (pool.rs lines 210-227):
scan the transfers in order, skip those whose remaining collateral is below
the fee, keep the first one seen and afterwards replace it only when a
strictly smaller remaining collateral appears.  Returns the selected index
together with the selected transfer (the source returns a mutable
reference). -/
def selectFrom (locked_fee : Nat) :
    List Transfer → Nat → Option (Nat × Transfer) → Option (Nat × Transfer)
  | [], _, best => best
  | t :: rest, i, best =>
    let best' :=
      if t.remaining_collateral < locked_fee then best
      else
        match best with
        | none => some (i, t)
        | some sel =>
          if sel.2.remaining_collateral > t.remaining_collateral then some (i, t)
          else best
    selectFrom locked_fee rest (i + 1) best'

/-- ReceiptPool::select_transfer (pool.rs lines 210-227). -/
def selectTransfer (p : ReceiptPool) (locked_fee : Nat) :
    Option (Nat × Transfer) :=
  selectFrom locked_fee p.transfers 0 none

/-- Tail of ReceiptPool::commit (pool.rs lines 283-327) after the receipt slot
has been obtained and the transfer `t1` already carries the updated remaining
collateral, receipt cache and previous receipt id.  Builds the wire
commitment `[transfer id, fee, receipt id, signature, unlocked fee]`, signing
keccak256 of the fee and receipt id bytes only.  `none` models a panic: the
`U256` addition `unlocked_fee + locked_fee` overflowing, or an invalid
recovery id. -/
def finishCommit (C : Crypto) (locked_fee : Nat) (low_before low_now : Bool)
    (receipt : PooledReceipt) (t1 : Transfer) : Option (ReceiptBorrow × Transfer) :=
  if U256_BOUND ≤ receipt.unlocked_fee + locked_fee then none
  else
    let fee := receipt.unlocked_fee + locked_fee
    let signed_data := to_be_bytes fee ++ natToBeBytes 4 receipt.receipt_id
    let message := C.keccak256 signed_data
    let sigPair := C.signRecoverable t1.signer message
    match normalizeRecoveryId sigPair.2 with
    | none => none
    | some recovery_id =>
      let commitment := t1.vector_transfer_id ++ to_be_bytes fee ++
        natToBeBytes 4 receipt.receipt_id ++ sigPair.1 ++ [recovery_id] ++
        to_be_bytes receipt.unlocked_fee
      let low_collateral_warning := low_before != low_now
      let t2 := if low_collateral_warning
        then { t1 with low_collateral_threshold := 0 } else t1
      some (⟨commitment, low_collateral_warning⟩, t2)

/-- Body of ReceiptPool::commit (pool.rs lines 239-327) acting on the selected
transfer.  The id-exhaustion branch restores the pre-deducted collateral, so
the transfer is returned unchanged there.  `rand` models the index drawn by
`rng().gen_range(0..receipts.len())`, reduced modulo the cache length. -/
def commitTransfer (C : Crypto) (rand locked_fee : Nat) (t : Transfer) :
    Option (Except BorrowFail (ReceiptBorrow × Transfer)) :=
  let low_before := decide (t.remaining_collateral < t.low_collateral_threshold)
  let remaining1 := t.remaining_collateral - locked_fee
  let low_now := decide (remaining1 < t.low_collateral_threshold)
  if t.receipt_cache.isEmpty then
    if t.prev_receipt_id = MAX_RECEIPT_ID then
      some (Except.error BorrowFail.InsufficientCollateral)
    else
      let low_now1 := if t.prev_receipt_id = LOW_RECEIPT_CAPACITY then true else low_now
      let receipt_id := t.prev_receipt_id + 1
      let t1 := { t with remaining_collateral := remaining1
                         prev_receipt_id := receipt_id }
      (finishCommit C locked_fee low_before low_now1 ⟨0, receipt_id⟩ t1).map Except.ok
  else
    match swapRemove t.receipt_cache (rand % t.receipt_cache.length) with
    | none => none
    | some (receipt, cache1) =>
      let t1 := { t with remaining_collateral := remaining1
                         receipt_cache := cache1 }
      (finishCommit C locked_fee low_before low_now receipt t1).map Except.ok

/-- ReceiptPool::commit (pool.rs lines 235-328). -/
def commit (C : Crypto) (rand : Nat) (p : ReceiptPool) (locked_fee : Nat) :
    Option (Except BorrowFail (ReceiptBorrow × ReceiptPool)) :=
  match selectTransfer p locked_fee with
  | none => some (Except.error BorrowFail.InsufficientCollateral)
  | some (i, t) =>
    match commitTransfer C rand locked_fee t with
    | none => none
    | some (Except.error e) => some (Except.error e)
    | some (Except.ok (borrow, t1)) =>
      some (Except.ok (borrow, ⟨p.transfers.set i t1⟩))

/-- Effect of ReceiptPool::release (pool.rs lines 346-376) on the transfer it
found, given the decoded locked fee, unlocked fee and receipt id: on Success
the locked fee goes into the pushed receipt's unlocked fee, on Failure and on
Unknown it goes back into the remaining collateral and the receipt keeps its
original unlocked fee.  `none` models the `U256` addition panicking on
overflow. -/
def releaseTransfer (t : Transfer) (locked_fee unlocked_fee receipt_id : Nat)
    (status : QueryStatus) : Option Transfer :=
  match status with
  | QueryStatus.Success =>
    if U256_BOUND ≤ unlocked_fee + locked_fee then none
    else some { t with receipt_cache :=
      t.receipt_cache ++ [⟨unlocked_fee + locked_fee, receipt_id⟩] }
  | QueryStatus.Failure =>
    if U256_BOUND ≤ t.remaining_collateral + locked_fee then none
    else some { t with
      remaining_collateral := t.remaining_collateral + locked_fee
      receipt_cache := t.receipt_cache ++ [⟨unlocked_fee, receipt_id⟩] }
  | QueryStatus.Unknown =>
    if U256_BOUND ≤ t.remaining_collateral + locked_fee then none
    else some { t with
      remaining_collateral := t.remaining_collateral + locked_fee
      receipt_cache := t.receipt_cache ++ [⟨unlocked_fee, receipt_id⟩] }

/-- ReceiptPool::release (pool.rs lines 330-377).  `none` models a panic: the
length assertion failing, the `U256` subtraction `fee - unlocked_fee`
underflowing, or the funds-destination addition overflowing.  When no
installed transfer matches the decoded transfer id the receipt is dropped and
the pool is returned unchanged. -/
def release (p : ReceiptPool) (bytes : List Nat) (status : QueryStatus) :
    Option ReceiptPool :=
  if bytes.length ≠ BORROWED_RECEIPT_LEN then none
  else
    match p.transfers.findIdx?
        (fun t => t.vector_transfer_id == commitmentTransferId bytes) with
    | none => some p
    | some i =>
      match p.transfers[i]? with
      | none => none
      | some t =>
        let fee := commitmentFee bytes
        let unlocked_fee := commitmentUnlockedFee bytes
        if fee < unlocked_fee then none
        else
          match releaseTransfer t (fee - unlocked_fee) unlocked_fee
              (commitmentReceiptId bytes) status with
          | none => none
          | some t1 => some ⟨p.transfers.set i t1⟩

/-- VoucherError (voucher.rs lines 6-12). -/
inductive VoucherError where
  | InvalidData
  | InvalidSignature
  | UnorderedReceipts
  | NoValue
deriving DecidableEq

/-- Size of one voucher input record (voucher.rs lines 27-30):
payment `[0,32)`, receipt id `[32,47)`, signature `[47,112)`. -/
def VOUCHER_RECORD_SIZE : Nat := 112

/-- Lexicographic strict order on byte strings, as the derived `Ord` of the
Rust `[u8; 15]` receipt-id array compares (for equal lengths this is
big-endian numeric order). -/
def bytesLt : List Nat → List Nat → Bool
  | [], [] => false
  | [], _ :: _ => true
  | _ :: _, [] => false
  | a :: as, b :: bs => if a < b then true else if b < a then false else bytesLt as bs

/-- Recursion kernel of `chunksExact`, structurally recursive on a fuel that
bounds the input length (each step consumes at least one element, so
`l.length` fuel suffices). -/
def chunksExactFuel (n : Nat) : Nat → List α → List (List α)
  | 0, _ => []
  | fuel + 1, l =>
    if n = 0 ∨ l.length < n then []
    else l.take n :: chunksExactFuel n fuel (l.drop n)

/-- chunks_exact: splits into consecutive chunks of length `n`, dropping any
shorter remainder. -/
def chunksExact (n : Nat) (l : List α) : List (List α) :=
  chunksExactFuel n l.length l

/-- U256::saturating_add. -/
def saturatingAdd (a b : Nat) : Nat := min (a + b) (U256_BOUND - 1)

/-- Decoded receipt id field of a voucher record. -/
def recordReceiptId (chunk : List Nat) : List Nat := slice chunk 32 47

/-- Decoded payment field of a voucher record. -/
def recordPayment (chunk : List Nat) : Nat := fromBeBytes (slice chunk 0 32)

/-- Per-record loop of receipts_to_voucher (voucher.rs lines 68-101): check
the strict ordering of receipt ids, parse the first 64 signature bytes,
verify the signature of `keccak256(allocation_id || payment || receipt_id)`,
and accumulate the payments with saturating addition. -/
def processReceipts (C : Crypto) (allocation_id : List Nat)
    (allocation_signer : Nat) :
    List Nat → Nat → List (List Nat) → Except VoucherError Nat
  | _, total, [] => Except.ok total
  | prev_receipt_id, total, chunk :: rest =>
    let receipt_id := recordReceiptId chunk
    if !(bytesLt prev_receipt_id receipt_id) then
      Except.error VoucherError.UnorderedReceipts
    else
      match C.parseCompact ((slice chunk 47 112).take 64) with
      | none => Except.error VoucherError.InvalidData
      | some signature =>
        let message := C.keccak256 (allocation_id ++ slice chunk 0 47)
        if !(C.verify message signature allocation_signer) then
          Except.error VoucherError.InvalidSignature
        else
          processReceipts C allocation_id allocation_signer receipt_id
            (saturatingAdd total (recordPayment chunk)) rest

/-- receipts_to_voucher (voucher.rs lines 48-115). -/
def receipts_to_voucher (C : Crypto) (allocation_id : List Nat)
    (allocation_signer voucher_signer : Nat) (data : List Nat) :
    Except VoucherError (List Nat) :=
  if data.length % VOUCHER_RECORD_SIZE ≠ 0 then Except.error VoucherError.InvalidData
  else
    match processReceipts C allocation_id allocation_signer
        (List.replicate 15 0) 0 (chunksExact VOUCHER_RECORD_SIZE data) with
    | Except.error e => Except.error e
    | Except.ok total =>
      if total = 0 then Except.error VoucherError.NoValue
      else
        let message := allocation_id ++ to_be_bytes total
        Except.ok (message ++ C.sign65 message voucher_signer)

/-- Saturating sum of the payment fields of all records of a voucher input. -/
def voucherTotal (data : List Nat) : Nat :=
  (chunksExact VOUCHER_RECORD_SIZE data).foldl
    (fun total chunk => saturatingAdd total (recordPayment chunk)) 0

/-- Receipt ids of all records of a voucher input, in order. -/
def voucherIds (data : List Nat) : List (List Nat) :=
  (chunksExact VOUCHER_RECORD_SIZE data).map recordReceiptId

/-- Strict lexicographic ascent of a list of receipt ids, starting from a
given predecessor. -/
def ascendingFrom : List Nat → List (List Nat) → Bool
  | _, [] => true
  | prev, id :: rest => bytesLt prev id && ascendingFrom id rest

/-- One voucher record passes its cryptographic checks: the compact signature
parses and verifies against the allocation signer. -/
def chunkPasses (C : Crypto) (allocation_id : List Nat)
    (allocation_signer : Nat) (chunk : List Nat) : Bool :=
  match C.parseCompact ((slice chunk 47 112).take 64) with
  | none => false
  | some signature =>
    C.verify (C.keccak256 (allocation_id ++ slice chunk 0 47)) signature
      allocation_signer

/-!  Ghost-instrumented transition system for the pool.  A configuration
carries the pool together with the outstanding commitments: those emitted by
a successful commit and not yet passed back to release. -/

/-- Pool state plus the ghost list of outstanding commitments. -/
structure Config where
  pool : ReceiptPool
  outstanding : List (List Nat)
deriving DecidableEq

/-- Transitions of the pool: installing a transfer (its id a 32-byte string,
its collateral a U256), uninstalling a transfer, a successful commit (its
commitment becomes outstanding), and a release of an outstanding commitment.
Failed commits leave the pool unchanged and are omitted. -/
inductive Step (C : Crypto) : Config → Config → Prop where
  | add (cfg : Config) (signer collateral : Nat) (tid : List Nat)
      (cfg' : Config) :
      tid.length = 32 → collateral < U256_BOUND →
      cfg' = ⟨add_transfer cfg.pool signer collateral tid, cfg.outstanding⟩ →
      Step C cfg cfg'
  | remove (cfg : Config) (tid : List Nat) (cfg' : Config) :
      cfg' = ⟨remove_transfer cfg.pool tid, cfg.outstanding⟩ →
      Step C cfg cfg'
  | commit (cfg : Config) (rand locked_fee : Nat) (borrow : ReceiptBorrow)
      (pool' : ReceiptPool) (cfg' : Config) :
      commit C rand cfg.pool locked_fee = some (Except.ok (borrow, pool')) →
      cfg' = ⟨pool', borrow.commitment :: cfg.outstanding⟩ →
      Step C cfg cfg'
  | release (cfg : Config) (bytes : List Nat) (status : QueryStatus)
      (pool' : ReceiptPool) (cfg' : Config) :
      bytes ∈ cfg.outstanding →
      release cfg.pool bytes status = some pool' →
      cfg' = ⟨pool', cfg.outstanding.erase bytes⟩ →
      Step C cfg cfg'

/-- Configurations reachable from the empty pool. -/
inductive Reach (C : Crypto) : Config → Prop where
  | start : Reach C ⟨⟨[]⟩, []⟩
  | step {cfg cfg' : Config} : Reach C cfg → Step C cfg cfg' → Reach C cfg'

/-- Guarded transitions: as `Step`, except that a transfer id may not be
installed while commitments bearing it are still outstanding (re-installing
such an id resurrects a fresh transfer that old outstanding commitments can
release into). -/
inductive GStep (C : Crypto) : Config → Config → Prop where
  | add (cfg : Config) (signer collateral : Nat) (tid : List Nat)
      (cfg' : Config) :
      tid.length = 32 → collateral < U256_BOUND →
      (∀ b ∈ cfg.outstanding, commitmentTransferId b ≠ tid) →
      cfg' = ⟨add_transfer cfg.pool signer collateral tid, cfg.outstanding⟩ →
      GStep C cfg cfg'
  | remove (cfg : Config) (tid : List Nat) (cfg' : Config) :
      cfg' = ⟨remove_transfer cfg.pool tid, cfg.outstanding⟩ →
      GStep C cfg cfg'
  | commit (cfg : Config) (rand locked_fee : Nat) (borrow : ReceiptBorrow)
      (pool' : ReceiptPool) (cfg' : Config) :
      commit C rand cfg.pool locked_fee = some (Except.ok (borrow, pool')) →
      cfg' = ⟨pool', borrow.commitment :: cfg.outstanding⟩ →
      GStep C cfg cfg'
  | release (cfg : Config) (bytes : List Nat) (status : QueryStatus)
      (pool' : ReceiptPool) (cfg' : Config) :
      bytes ∈ cfg.outstanding →
      release cfg.pool bytes status = some pool' →
      cfg' = ⟨pool', cfg.outstanding.erase bytes⟩ →
      GStep C cfg cfg'

/-- Configurations reachable from the empty pool by guarded transitions. -/
inductive GReach (C : Crypto) : Config → Prop where
  | start : GReach C ⟨⟨[]⟩, []⟩
  | step {cfg cfg' : Config} : GReach C cfg → GStep C cfg cfg' → GReach C cfg'

/-- Outstanding commitments bearing a given transfer id. -/
def outFor (outstanding : List (List Nat)) (tid : List Nat) : List (List Nat) :=
  outstanding.filter (fun b => commitmentTransferId b == tid)

/-- Sum of the full fee fields of a list of commitments. -/
def feeSum (bs : List (List Nat)) : Nat :=
  (bs.map commitmentFee).sum

/-- Sum of `fee - unlocked_fee` over a list of commitments: the quantity the
specification's conservation equation uses. -/
def lockedSum (bs : List (List Nat)) : Nat :=
  (bs.map (fun b => commitmentFee b - commitmentUnlockedFee b)).sum

/-- Sum of the unlocked fees cached in a transfer. -/
def cacheSum (t : Transfer) : Nat :=
  (t.receipt_cache.map PooledReceipt.unlocked_fee).sum

/-- Receipt ids of the outstanding commitments bearing a given transfer id. -/
def outIds (outstanding : List (List Nat)) (tid : List Nat) : List Nat :=
  (outFor outstanding tid).map commitmentReceiptId

/-- Receipt ids cached in a transfer. -/
def cacheIds (t : Transfer) : List Nat :=
  t.receipt_cache.map PooledReceipt.receipt_id

/-- Well-formedness of an outstanding commitment: wire length 165 and a fee
field at least the unlocked-fee field. -/
structure CommitmentOk (b : List Nat) : Prop where
  len : b.length = BORROWED_RECEIPT_LEN
  unl_le_fee : commitmentUnlockedFee b ≤ commitmentFee b

/-- Per-transfer inductive invariant. -/
structure TransferInv (outstanding : List (List Nat)) (t : Transfer) : Prop where
  conserve : t.remaining_collateral
      + feeSum (outFor outstanding t.vector_transfer_id) + cacheSum t
    = t.initial_collateral
  ids_nodup : (outIds outstanding t.vector_transfer_id ++ cacheIds t).Nodup
  ids_pos : ∀ r ∈ outIds outstanding t.vector_transfer_id ++ cacheIds t, 1 ≤ r
  ids_le_prev : ∀ r ∈ outIds outstanding t.vector_transfer_id ++ cacheIds t,
    r ≤ t.prev_receipt_id
  prev_le : t.prev_receipt_id ≤ MAX_RECEIPT_ID
  tid_len : t.vector_transfer_id.length = 32

/-- Global inductive invariant of guarded-reachable configurations. -/
structure Inv (cfg : Config) : Prop where
  tids_nodup : (cfg.pool.transfers.map Transfer.vector_transfer_id).Nodup
  out_ok : ∀ b ∈ cfg.outstanding, CommitmentOk b
  per : ∀ t ∈ cfg.pool.transfers, TransferInv cfg.outstanding t

/-!  Harness helpers for evaluating the model on closed inputs. -/

/-- Extracts the borrow of a successful commit result. -/
def borrowOf (r : Option (Except BorrowFail (ReceiptBorrow × ReceiptPool))) :
    ReceiptBorrow :=
  match r with
  | some (Except.ok (borrow, _)) => borrow
  | _ => ⟨[], false⟩

/-- Extracts the pool of a successful commit result. -/
def poolOf (r : Option (Except BorrowFail (ReceiptBorrow × ReceiptPool))) :
    ReceiptPool :=
  match r with
  | some (Except.ok (_, p)) => p
  | _ => ⟨[]⟩

/-- Whether a commit result is a successful borrow. -/
def isOkCommit (r : Option (Except BorrowFail (ReceiptBorrow × ReceiptPool))) :
    Bool :=
  match r with
  | some (Except.ok _) => true
  | _ => false

/-- Whether a commit result is a successful borrow reporting the
low-collateral warning. -/
def warnOf (r : Option (Except BorrowFail (ReceiptBorrow × ReceiptPool))) :
    Bool :=
  match r with
  | some (Except.ok (borrow, _)) => borrow.low_collateral_warning
  | _ => false

/-- Runs a sequence of commits with the given fees, stopping with `none` as
soon as one of them is not a successful borrow. -/
def commitSeq (C : Crypto) (p : ReceiptPool) : List Nat → Option ReceiptPool
  | [] => some p
  | fee :: rest =>
    match commit C 0 p fee with
    | some (Except.ok (_, p')) => commitSeq C p' rest
    | _ => none

/-- One pool-level commit of the given fee, keeping the pool unchanged when
the commit is not a successful borrow. -/
def poolCommitStep (C : Crypto) (fee : Nat) (p : ReceiptPool) : ReceiptPool :=
  match commit C 0 p fee with
  | some (Except.ok (_, p')) => p'
  | _ => p

/-- Iterates `poolCommitStep` n times. -/
def poolCommitIter (C : Crypto) (fee : Nat) : Nat → ReceiptPool → ReceiptPool
  | 0, p => p
  | n + 1, p => poolCommitIter C fee n (poolCommitStep C fee p)

/-!  Per-transfer operation traces, for the low-collateral-warning claim.  A
pool-level commit acts on the selected transfer through `commitTransfer`, and
a pool-level release acts on the found transfer through `releaseTransfer`;
the trace below applies those per-transfer effects directly. -/

/-- One operation on a single transfer: a commit attempt (skipped when the
transfer would not be selectable for the fee), or a release of some
commitment decoded to the given locked fee, unlocked fee and receipt id. -/
inductive TransferOp where
  | commitOp (rand locked_fee : Nat)
  | releaseOp (locked_fee unlocked_fee receipt_id : Nat) (status : QueryStatus)

/-- Applies one operation to a transfer, returning the new transfer and
whether a low-collateral warning was reported. -/
def applyOp (C : Crypto) (t : Transfer) : TransferOp → Transfer × Bool
  | TransferOp.commitOp rand locked_fee =>
    if t.remaining_collateral < locked_fee then (t, false)
    else
      match commitTransfer C rand locked_fee t with
      | some (Except.ok (borrow, t')) => (t', borrow.low_collateral_warning)
      | _ => (t, false)
  | TransferOp.releaseOp locked unlocked rid status =>
    match releaseTransfer t locked unlocked rid status with
    | some t' => (t', false)
    | none => (t, false)

/-- Number of low-collateral warnings reported along a trace of operations on
one transfer. -/
def warnCount (C : Crypto) (t : Transfer) : List TransferOp → Nat
  | [] => 0
  | op :: ops =>
    (if (applyOp C t op).2 then 1 else 0) + warnCount C (applyOp C t op).1 ops

/-- Number of warnings a transfer can still emit: one while the collateral
threshold is armed (positive), and one while the receipt-capacity trigger at
`LOW_RECEIPT_CAPACITY` has not yet been passed. -/
def warnBudget (t : Transfer) : Nat :=
  (if 0 < t.low_collateral_threshold then 1 else 0) +
  (if t.prev_receipt_id ≤ LOW_RECEIPT_CAPACITY then 1 else 0)

/-! ### Byte-level lemmas -/

theorem natToBeBytes_length (n v : Nat) : (natToBeBytes n v).length = n := by
  induction n generalizing v with
  | zero => rfl
  | succ k ih => simp [natToBeBytes, ih]

theorem natToBeBytes_lt (n v : Nat) : ∀ b ∈ natToBeBytes n v, b < 256 := by
  induction n generalizing v with
  | zero => simp [natToBeBytes]
  | succ k ih =>
    intro b hb
    simp only [natToBeBytes, List.mem_append, List.mem_singleton] at hb
    rcases hb with hb | hb
    · exact ih _ b hb
    · subst hb
      exact Nat.mod_lt _ (by norm_num)

theorem fromBeBytes_concat (xs : List Nat) (b : Nat) :
    fromBeBytes (xs ++ [b]) = fromBeBytes xs * 256 + b := by
  simp [fromBeBytes, List.foldl_append]

theorem fromBeBytes_natToBeBytes (n v : Nat) :
    fromBeBytes (natToBeBytes n v) = v % 256 ^ n := by
  induction n generalizing v with
  | zero => simp [natToBeBytes, fromBeBytes, Nat.mod_one]
  | succ k ih =>
    rw [natToBeBytes, fromBeBytes_concat, ih]
    rw [pow_succ, mul_comm ((256 : Nat) ^ k) 256, Nat.mod_mul]
    ring

theorem fromBeBytes_exact (n v : Nat) (h : v < 256 ^ n) :
    fromBeBytes (natToBeBytes n v) = v := by
  rw [fromBeBytes_natToBeBytes, Nat.mod_eq_of_lt h]

theorem pow256_32 : (256 : Nat) ^ 32 = U256_BOUND := by
  norm_num [U256_BOUND]

theorem to_be_bytes_exact (v : Nat) (h : v < U256_BOUND) :
    fromBeBytes (to_be_bytes v) = v := by
  rw [to_be_bytes, fromBeBytes_exact]
  rw [pow256_32]
  exact h

theorem fromBeBytes_foldl (xs : List Nat) (a : Nat) :
    xs.foldl (fun acc b => acc * 256 + b) a
      = a * 256 ^ xs.length + fromBeBytes xs := by
  induction xs generalizing a with
  | nil => simp [fromBeBytes]
  | cons x t ih =>
    have hx : fromBeBytes (x :: t) = t.foldl (fun acc b => acc * 256 + b) x := by
      simp [fromBeBytes]
    simp only [List.foldl_cons, List.length_cons, hx]
    rw [ih (a * 256 + x), ih x]
    ring

theorem fromBeBytes_lt (xs : List Nat) (h : ∀ b ∈ xs, b < 256) :
    fromBeBytes xs < 256 ^ xs.length := by
  induction xs with
  | nil => simp [fromBeBytes]
  | cons x t ih =>
    have hx : fromBeBytes (x :: t) = x * 256 ^ t.length + fromBeBytes t := by
      have h0 : fromBeBytes (x :: t) = t.foldl (fun acc b => acc * 256 + b) x := by
        simp [fromBeBytes]
      rw [h0, fromBeBytes_foldl]
    rw [hx]
    have hxl : x < 256 := h x (by simp)
    have htl : fromBeBytes t < 256 ^ t.length := ih (fun b hb => h b (by simp [hb]))
    have h1 : x * 256 ^ t.length + fromBeBytes t < (x + 1) * 256 ^ t.length := by
      have := Nat.pos_pow_of_pos t.length (show 0 < 256 by norm_num)
      nlinarith
    have h2 : (x + 1) * 256 ^ t.length ≤ 256 * 256 ^ t.length :=
      Nat.mul_le_mul_right _ (by omega)
    calc x * 256 ^ t.length + fromBeBytes t
        < (x + 1) * 256 ^ t.length := h1
      _ ≤ 256 * 256 ^ t.length := h2
      _ = 256 ^ (t.length + 1) := by ring
      _ = 256 ^ (x :: t).length := by simp

/-! ### Slice lemmas for the commitment layout -/

theorem drop_append_exact (a b : List Nat) (n : Nat) (h : a.length = n) :
    (a ++ b).drop n = b := by
  subst h
  exact List.drop_left a b

theorem take_append_exact (a b : List Nat) (n : Nat) (h : a.length = n) :
    (a ++ b).take n = a := by
  subst h
  exact List.take_left a b

theorem commitment_fields
    (tid feeB ridB sig unlB : List Nat)
    (htid : tid.length = 32) (hfee : feeB.length = 32) (hrid : ridB.length = 4)
    (hsig : sig.length = 65) (hunl : unlB.length = 32) :
    (tid ++ feeB ++ ridB ++ sig ++ unlB).length = BORROWED_RECEIPT_LEN ∧
    slice (tid ++ feeB ++ ridB ++ sig ++ unlB) 0 32 = tid ∧
    slice (tid ++ feeB ++ ridB ++ sig ++ unlB) 32 64 = feeB ∧
    slice (tid ++ feeB ++ ridB ++ sig ++ unlB) 64 68 = ridB ∧
    slice (tid ++ feeB ++ ridB ++ sig ++ unlB) 68 133 = sig ∧
    slice (tid ++ feeB ++ ridB ++ sig ++ unlB) 133 165 = unlB := by
  have hc : tid ++ feeB ++ ridB ++ sig ++ unlB
      = tid ++ (feeB ++ (ridB ++ (sig ++ unlB))) := by
    simp [List.append_assoc]
  have d32 : (tid ++ feeB ++ ridB ++ sig ++ unlB).drop 32
      = feeB ++ (ridB ++ (sig ++ unlB)) := by
    rw [hc]
    exact drop_append_exact tid _ 32 htid
  have d64 : (tid ++ feeB ++ ridB ++ sig ++ unlB).drop 64
      = ridB ++ (sig ++ unlB) := by
    have h64 : (64 : Nat) = 32 + 32 := by norm_num
    rw [h64, ← List.drop_drop, d32]
    exact drop_append_exact feeB _ 32 hfee
  have d68 : (tid ++ feeB ++ ridB ++ sig ++ unlB).drop 68
      = sig ++ unlB := by
    have h68 : (68 : Nat) = 64 + 4 := by norm_num
    rw [h68, ← List.drop_drop, d64]
    exact drop_append_exact ridB _ 4 hrid
  have d133 : (tid ++ feeB ++ ridB ++ sig ++ unlB).drop 133 = unlB := by
    have h133 : (133 : Nat) = 68 + 65 := by norm_num
    rw [h133, ← List.drop_drop, d68]
    exact drop_append_exact sig _ 65 hsig
  refine ⟨?_, ?_, ?_, ?_, ?_, ?_⟩
  · simp [BORROWED_RECEIPT_LEN, htid, hfee, hrid, hsig, hunl]
  · show ((tid ++ feeB ++ ridB ++ sig ++ unlB).drop 0).take (32 - 0) = tid
    simp only [List.drop_zero, Nat.sub_zero]
    rw [hc]
    exact take_append_exact tid _ 32 htid
  · show ((tid ++ feeB ++ ridB ++ sig ++ unlB).drop 32).take (64 - 32) = feeB
    rw [d32]
    exact take_append_exact feeB _ 32 hfee
  · show ((tid ++ feeB ++ ridB ++ sig ++ unlB).drop 64).take (68 - 64) = ridB
    rw [d64]
    exact take_append_exact ridB _ 4 hrid
  · show ((tid ++ feeB ++ ridB ++ sig ++ unlB).drop 68).take (133 - 68) = sig
    rw [d68]
    exact take_append_exact sig _ 65 hsig
  · show ((tid ++ feeB ++ ridB ++ sig ++ unlB).drop 133).take (165 - 133) = unlB
    rw [d133]
    exact List.take_of_length_le (by omega)

/-! ### swap_remove -/

theorem swapRemove_perm {α : Type} {l : List α} {i : Nat} {x : α} {l' : List α}
    (h : swapRemove l i = some (x, l')) :
    l.Perm (x :: l') ∧ l[i]? = some x := by
  unfold swapRemove at h
  cases hx : l[i]? with
  | none => rw [hx] at h; exact absurd h (by simp)
  | some a =>
    cases hy : l.getLast? with
    | none => rw [hx, hy] at h; exact absurd h (by simp)
    | some y =>
      rw [hx, hy] at h
      simp only [Option.some.injEq, Prod.mk.injEq] at h
      obtain ⟨hax, hl'⟩ := h
      rw [hax] at hx
      have hi : i < l.length := by
        rcases List.getElem?_eq_some.mp hx with ⟨hlt, _⟩
        exact hlt
      have hxv : l[i] = x := by
        rcases List.getElem?_eq_some.mp hx with ⟨hlt, hv⟩
        exact hv
      have hset : l.set i y = l.take i ++ y :: l.drop (i + 1) := by
        rw [List.set_eq_take_append_cons_drop]
        simp [hi]
      have hsplit : l = l.take i ++ x :: l.drop (i + 1) := by
        conv_lhs => rw [← List.take_append_drop i l]
        rw [List.drop_eq_getElem_cons hi, hxv]
      refine ⟨?_, by rw [hax]⟩
      rcases List.eq_nil_or_concat (l.drop (i + 1)) with hnil | ⟨ys, z, hz⟩
      · -- removing the final element: the set writes the last element onto
        -- itself and dropLast removes it
        have hyx : y = x := by
          have hlx : l.getLast? = some x := by
            rw [hsplit, hnil, List.getLast?_append]
            simp
          rw [hy] at hlx
          exact (Option.some.injEq _ _).mp hlx.symm |>.symm
        subst hyx
        rw [← hl', hset, hnil]
        have hd : (l.take i ++ [y]).dropLast = l.take i := List.dropLast_concat
        rw [hd]
        have hfin : l = l.take i ++ [y] := by
          nth_rewrite 1 [hsplit]
          rw [hnil]
        nth_rewrite 1 [hfin]
        exact List.perm_append_singleton y (l.take i)
      · rw [List.concat_eq_append] at hz
        have hzlast : l.getLast? = some z := by
          have hre : l = (l.take i ++ x :: ys) ++ [z] := by
            nth_rewrite 1 [hsplit]
            rw [hz]
            simp
          rw [hre]
          exact List.getLast?_concat _
        have hyz : y = z := by
          rw [hy] at hzlast
          exact (Option.some.injEq _ _).mp hzlast
        subst hyz
        rw [← hl', hset, hz]
        have hassoc : l.take i ++ y :: (ys ++ [y]) = (l.take i ++ y :: ys) ++ [y] := by
          simp
        rw [hassoc, List.dropLast_concat]
        have hfin : l = l.take i ++ x :: (ys ++ [y]) := by
          nth_rewrite 1 [hsplit]
          rw [hz]
        have hstep1 : (l.take i ++ x :: (ys ++ [y])).Perm
            (x :: (l.take i ++ (ys ++ [y]))) := List.perm_middle
        have hstep2 : (x :: (l.take i ++ (ys ++ [y]))).Perm
            (x :: (l.take i ++ (y :: ys))) :=
          List.Perm.cons x
            (List.Perm.append_left (l.take i) (List.perm_append_singleton y ys))
        have hres := hstep1.trans hstep2
        nth_rewrite 1 [hfin]
        exact hres

/-! ### Transfer selection -/

theorem findIdx?_some_spec {α : Type} {p : α → Bool} {l : List α} {i : Nat}
    (h : l.findIdx? p = some i) :
    ∃ x, l[i]? = some x ∧ p x = true := by
  rcases List.findIdx?_eq_some_iff_findIdx_eq.mp h with ⟨hlt, hfi⟩
  refine ⟨l[i], ?_, ?_⟩
  · exact List.getElem?_eq_some.mpr ⟨hlt, rfl⟩
  · have := @List.findIdx_getElem _ p l (by rw [hfi]; exact hlt)
    simpa [hfi] using this

theorem selectFrom_spec (f : Nat) :
    ∀ (ts : List Transfer) (i : Nat) (best : Option (Nat × Transfer)),
    (∀ j0 u0, best = some (j0, u0) → j0 < i ∧ f ≤ u0.remaining_collateral) →
    ∀ j u, selectFrom f ts i best = some (j, u) →
      ((∃ k, ts[k]? = some u ∧ j = i + k ∧ f ≤ u.remaining_collateral) ∨
        best = some (j, u)) ∧
      (∀ k u', ts[k]? = some u' → f ≤ u'.remaining_collateral →
        u.remaining_collateral ≤ u'.remaining_collateral ∧
        (u'.remaining_collateral ≤ u.remaining_collateral → j ≤ i + k)) ∧
      (∀ j0 u0, best = some (j0, u0) →
        u.remaining_collateral ≤ u0.remaining_collateral ∧
        (u0.remaining_collateral ≤ u.remaining_collateral → (j, u) = (j0, u0))) := by
  intro ts
  induction ts with
  | nil =>
    intro i best hbest j u hsel
    simp only [selectFrom] at hsel
    refine ⟨Or.inr hsel, ?_, ?_⟩
    · intro k u' hk
      simp at hk
    · intro j0 u0 hb
      rw [hsel] at hb
      have hpq : (j, u) = (j0, u0) := (Option.some.injEq _ _).mp hb
      injection hpq with h1 h2
      subst h1
      subst h2
      exact ⟨le_refl _, fun _ => rfl⟩
  | cons t rest ih =>
    intro i best hbest j u hsel
    simp only [selectFrom] at hsel
    by_cases hte : t.remaining_collateral < f
    · -- the head transfer is skipped
      rw [if_pos hte] at hsel
      have hbest1 : ∀ j0 u0, best = some (j0, u0) →
          j0 < i + 1 ∧ f ≤ u0.remaining_collateral := by
        intro j0 u0 hb
        rcases hbest j0 u0 hb with ⟨h1, h2⟩
        exact ⟨by omega, h2⟩
      rcases ih (i + 1) best hbest1 j u hsel with ⟨hA, hB, hC⟩
      refine ⟨?_, ?_, hC⟩
      · rcases hA with ⟨k, hk, hj, hf⟩ | hb
        · exact Or.inl ⟨k + 1, by simpa using hk, by omega, hf⟩
        · exact Or.inr hb
      · intro k u' hk hf
        cases k with
        | zero =>
          simp only [List.getElem?_cons_zero, Option.some.injEq] at hk
          rw [← hk] at hf
          exact absurd hf (by omega)
        | succ k' =>
          simp only [List.getElem?_cons_succ] at hk
          rcases hB k' u' hk hf with ⟨h1, h2⟩
          exact ⟨h1, fun hle => by have := h2 hle; omega⟩
    · -- the head transfer is eligible
      rw [if_neg hte] at hsel
      push_neg at hte
      cases best with
      | none =>
        simp only at hsel
        have hbest1 : ∀ j0 u0, (some (i, t) : Option (Nat × Transfer)) = some (j0, u0) →
            j0 < i + 1 ∧ f ≤ u0.remaining_collateral := by
          intro j0 u0 hb
          have hpq : ((i, t) : Nat × Transfer) = (j0, u0) := (Option.some.injEq _ _).mp hb
          injection hpq with h1 h2
          subst h1
          subst h2
          exact ⟨by omega, hte⟩
        rcases ih (i + 1) (some (i, t)) hbest1 j u hsel with ⟨hA, hB, hC⟩
        refine ⟨?_, ?_, ?_⟩
        · rcases hA with ⟨k, hk, hj, hf⟩ | hb
          · exact Or.inl ⟨k + 1, by simpa using hk, by omega, hf⟩
          · have hpq : ((i, t) : Nat × Transfer) = (j, u) := (Option.some.injEq _ _).mp hb
            injection hpq with h1 h2
            exact Or.inl ⟨0, by simp [h2], by omega, h2 ▸ hte⟩
        · intro k u' hk hf
          cases k with
          | zero =>
            simp only [List.getElem?_cons_zero, Option.some.injEq] at hk
            rcases hC i t rfl with ⟨h1, h2⟩
            refine ⟨by rw [← hk]; exact h1, fun hle => ?_⟩
            rw [← hk] at hle
            have hpq := h2 hle
            injection hpq with hj1 _
            omega
          | succ k' =>
            simp only [List.getElem?_cons_succ] at hk
            rcases hB k' u' hk hf with ⟨h1, h2⟩
            exact ⟨h1, fun hle => by have := h2 hle; omega⟩
        · intro j0 u0 hb
          cases hb
      | some sel =>
        simp only at hsel
        by_cases hgt : sel.2.remaining_collateral > t.remaining_collateral
        · -- the head strictly improves on the accumulator
          rw [if_pos hgt] at hsel
          have hbest1 : ∀ j0 u0, (some (i, t) : Option (Nat × Transfer)) = some (j0, u0) →
              j0 < i + 1 ∧ f ≤ u0.remaining_collateral := by
            intro j0 u0 hb
            have hpq : ((i, t) : Nat × Transfer) = (j0, u0) := (Option.some.injEq _ _).mp hb
            injection hpq with h1 h2
            subst h1
            subst h2
            exact ⟨by omega, hte⟩
          rcases ih (i + 1) (some (i, t)) hbest1 j u hsel with ⟨hA, hB, hC⟩
          refine ⟨?_, ?_, ?_⟩
          · rcases hA with ⟨k, hk, hj, hf⟩ | hb
            · exact Or.inl ⟨k + 1, by simpa using hk, by omega, hf⟩
            · have hpq : ((i, t) : Nat × Transfer) = (j, u) := (Option.some.injEq _ _).mp hb
              injection hpq with h1 h2
              exact Or.inl ⟨0, by simp [h2], by omega, h2 ▸ hte⟩
          · intro k u' hk hf
            cases k with
            | zero =>
              simp only [List.getElem?_cons_zero, Option.some.injEq] at hk
              rcases hC i t rfl with ⟨h1, h2⟩
              refine ⟨by rw [← hk]; exact h1, fun hle => ?_⟩
              rw [← hk] at hle
              have hpq := h2 hle
              injection hpq with hj1 _
              omega
            | succ k' =>
              simp only [List.getElem?_cons_succ] at hk
              rcases hB k' u' hk hf with ⟨h1, h2⟩
              exact ⟨h1, fun hle => by have := h2 hle; omega⟩
          · intro j0 u0 hb
            have hsel0 : sel = (j0, u0) := (Option.some.injEq _ _).mp hb
            have hu0 : sel.2 = u0 := congrArg Prod.snd hsel0
            rcases hC i t rfl with ⟨h1, _⟩
            refine ⟨?_, fun hle => ?_⟩
            · rw [← hu0]
              omega
            · rw [← hu0] at hle
              omega
        · -- the accumulator is kept
          rw [if_neg hgt] at hsel
          push_neg at hgt
          have hbest1 : ∀ j0 u0, (some sel : Option (Nat × Transfer)) = some (j0, u0) →
              j0 < i + 1 ∧ f ≤ u0.remaining_collateral := by
            intro j0 u0 hb
            rcases hbest j0 u0 hb with ⟨h1, h2⟩
            exact ⟨by omega, h2⟩
          rcases ih (i + 1) (some sel) hbest1 j u hsel with ⟨hA, hB, hC⟩
          refine ⟨?_, ?_, ?_⟩
          · rcases hA with ⟨k, hk, hj, hf⟩ | hb
            · exact Or.inl ⟨k + 1, by simpa using hk, by omega, hf⟩
            · exact Or.inr hb
          · intro k u' hk hf
            cases k with
            | zero =>
              simp only [List.getElem?_cons_zero, Option.some.injEq] at hk
              rcases hC sel.1 sel.2 rfl with ⟨h1, h2⟩
              refine ⟨by rw [← hk]; omega, fun hle => ?_⟩
              rw [← hk] at hle
              have hues : sel.2.remaining_collateral ≤ u.remaining_collateral := by omega
              have hpq := h2 hues
              injection hpq with hj1 _
              rcases hbest sel.1 sel.2 rfl with ⟨hlt, _⟩
              omega
            | succ k' =>
              simp only [List.getElem?_cons_succ] at hk
              rcases hB k' u' hk hf with ⟨h1, h2⟩
              exact ⟨h1, fun hle => by have := h2 hle; omega⟩
          · intro j0 u0 hb
            have hsel0 : sel = (j0, u0) := (Option.some.injEq _ _).mp hb
            rcases hC j0 u0 (by rw [← hsel0]) with ⟨h1, h2⟩
            exact ⟨h1, h2⟩
theorem selectFrom_none (f : Nat) :
    ∀ (ts : List Transfer) (i : Nat) (best : Option (Nat × Transfer)),
    selectFrom f ts i best = none ↔
      best = none ∧ ∀ t ∈ ts, t.remaining_collateral < f := by
  intro ts
  induction ts with
  | nil =>
    intro i best
    simp [selectFrom]
  | cons t rest ih =>
    intro i best
    simp only [selectFrom]
    by_cases hte : t.remaining_collateral < f
    · rw [if_pos hte, ih]
      constructor
      · rintro ⟨h1, h2⟩
        exact ⟨h1, by
          intro x hx
          rcases List.mem_cons.mp hx with hx | hx
          · subst hx; exact hte
          · exact h2 x hx⟩
      · rintro ⟨h1, h2⟩
        exact ⟨h1, fun x hx => h2 x (List.mem_cons_of_mem _ hx)⟩
    · rw [if_neg hte, ih]
      constructor
      · rintro ⟨h1, _⟩
        exfalso
        cases hbv : best with
        | none => rw [hbv] at h1; simp at h1
        | some sel =>
          rw [hbv] at h1
          by_cases hgt : sel.2.remaining_collateral > t.remaining_collateral <;>
            simp [hgt] at h1
      · rintro ⟨_, h2⟩
        exact absurd (h2 t (List.mem_cons_self t rest)) hte

/-- Soundness and optimality of `selectTransfer`: a selected transfer sits at
the returned index, can cover the fee, has minimal remaining collateral among
the transfers that can, and on ties has the smallest index. -/
theorem selectTransfer_spec {p : ReceiptPool} {f j : Nat} {u : Transfer}
    (h : selectTransfer p f = some (j, u)) :
    p.transfers[j]? = some u ∧ f ≤ u.remaining_collateral ∧
    ∀ k u', p.transfers[k]? = some u' → f ≤ u'.remaining_collateral →
      u.remaining_collateral ≤ u'.remaining_collateral ∧
      (u'.remaining_collateral ≤ u.remaining_collateral → j ≤ k) := by
  have hs := selectFrom_spec f p.transfers 0 none (by intro j0 u0 hb; cases hb) j u h
  rcases hs with ⟨hA, hB, _⟩
  rcases hA with ⟨k, hk, hj, hf⟩ | hb
  · refine ⟨by rw [hj]; simpa using hk, hf, ?_⟩
    intro k' u' hk' hf'
    rcases hB k' u' hk' hf' with ⟨h1, h2⟩
    exact ⟨h1, fun hle => by have := h2 hle; omega⟩
  · cases hb

theorem selectTransfer_none {p : ReceiptPool} {f : Nat} :
    selectTransfer p f = none ↔ ∀ t ∈ p.transfers, t.remaining_collateral < f := by
  rw [selectTransfer, selectFrom_none]
  simp

/-! ### Characterization of commit -/

theorem pow256_4 : (256 : Nat) ^ 4 = 2 ^ 32 := by norm_num

theorem warnUpdate_fields (w : Bool) (t1 : Transfer) :
    (if w then { t1 with low_collateral_threshold := 0 } else t1).initial_collateral
        = t1.initial_collateral ∧
    (if w then { t1 with low_collateral_threshold := 0 } else t1).remaining_collateral
        = t1.remaining_collateral ∧
    (if w then { t1 with low_collateral_threshold := 0 } else t1).prev_receipt_id
        = t1.prev_receipt_id ∧
    (if w then { t1 with low_collateral_threshold := 0 } else t1).receipt_cache
        = t1.receipt_cache ∧
    (if w then { t1 with low_collateral_threshold := 0 } else t1).signer
        = t1.signer ∧
    (if w then { t1 with low_collateral_threshold := 0 } else t1).vector_transfer_id
        = t1.vector_transfer_id := by
  cases w <;> simp

theorem finishCommit_ok {C : Crypto} {f : Nat} {lb ln : Bool}
    {receipt : PooledReceipt} {t1 : Transfer} {borrow : ReceiptBorrow}
    {t2 : Transfer} (hC : GoodCrypto C)
    (h : finishCommit C f lb ln receipt t1 = some (borrow, t2)) :
    receipt.unlocked_fee + f < U256_BOUND ∧
    borrow.low_collateral_warning = (lb != ln) ∧
    t2 = (if lb != ln then { t1 with low_collateral_threshold := 0 } else t1) ∧
    (t1.vector_transfer_id.length = 32 →
      borrow.commitment.length = BORROWED_RECEIPT_LEN ∧
      commitmentTransferId borrow.commitment = t1.vector_transfer_id ∧
      commitmentFee borrow.commitment = receipt.unlocked_fee + f ∧
      commitmentReceiptId borrow.commitment = receipt.receipt_id % 2 ^ 32 ∧
      commitmentUnlockedFee borrow.commitment = receipt.unlocked_fee) := by
  unfold finishCommit at h
  by_cases hov : U256_BOUND ≤ receipt.unlocked_fee + f
  · rw [if_pos hov] at h
    exact absurd h (by simp)
  · rw [if_neg hov] at h
    push_neg at hov
    simp only [] at h
    cases hrec : normalizeRecoveryId (C.signRecoverable t1.signer
        (C.keccak256 (to_be_bytes (receipt.unlocked_fee + f) ++
          natToBeBytes 4 receipt.receipt_id))).2 with
    | none =>
      rw [hrec] at h
      exact absurd h (by simp)
    | some v =>
      rw [hrec] at h
      simp only [Option.some.injEq, Prod.mk.injEq] at h
      obtain ⟨hb, ht2⟩ := h
      refine ⟨hov, by rw [← hb], by rw [← ht2], ?_⟩
      intro htid
      rw [← hb]
      simp only
      have hshape :
          t1.vector_transfer_id ++ to_be_bytes (receipt.unlocked_fee + f) ++
            natToBeBytes 4 receipt.receipt_id ++
            (C.signRecoverable t1.signer
              (C.keccak256 (to_be_bytes (receipt.unlocked_fee + f) ++
                natToBeBytes 4 receipt.receipt_id))).1 ++ [v] ++
            to_be_bytes receipt.unlocked_fee
          = t1.vector_transfer_id ++ to_be_bytes (receipt.unlocked_fee + f) ++
            natToBeBytes 4 receipt.receipt_id ++
            ((C.signRecoverable t1.signer
              (C.keccak256 (to_be_bytes (receipt.unlocked_fee + f) ++
                natToBeBytes 4 receipt.receipt_id))).1 ++ [v]) ++
            to_be_bytes receipt.unlocked_fee := by
        simp [List.append_assoc]
      rw [hshape]
      have hfields := commitment_fields t1.vector_transfer_id
        (to_be_bytes (receipt.unlocked_fee + f))
        (natToBeBytes 4 receipt.receipt_id)
        ((C.signRecoverable t1.signer
          (C.keccak256 (to_be_bytes (receipt.unlocked_fee + f) ++
            natToBeBytes 4 receipt.receipt_id))).1 ++ [v])
        (to_be_bytes receipt.unlocked_fee)
        htid (natToBeBytes_length 32 _) (natToBeBytes_length 4 _)
        (by simp [hC.2.1]) (natToBeBytes_length 32 _)
      rcases hfields with ⟨hlen, hf0, hf1, hf2, _, hf4⟩
      refine ⟨hlen, ?_, ?_, ?_, ?_⟩
      · rw [commitmentTransferId, hf0]
      · rw [commitmentFee, hf1]
        exact to_be_bytes_exact _ hov
      · rw [commitmentReceiptId, hf2, fromBeBytes_natToBeBytes, pow256_4]
      · rw [commitmentUnlockedFee, hf4]
        exact to_be_bytes_exact _ (by omega)

theorem commitTransfer_ok {C : Crypto} {rand f : Nat} {t : Transfer}
    {borrow : ReceiptBorrow} {t2 : Transfer} (hC : GoodCrypto C)
    (h : commitTransfer C rand f t = some (Except.ok (borrow, t2))) :
    ∃ receipt cache1,
      ((t.receipt_cache = [] ∧ receipt = (⟨0, t.prev_receipt_id + 1⟩ : PooledReceipt) ∧
         cache1 = [] ∧ t.prev_receipt_id ≠ MAX_RECEIPT_ID ∧
         t2.prev_receipt_id = t.prev_receipt_id + 1) ∨
       (t.receipt_cache.Perm (receipt :: cache1) ∧
         t2.prev_receipt_id = t.prev_receipt_id)) ∧
      receipt.unlocked_fee + f < U256_BOUND ∧
      t2.initial_collateral = t.initial_collateral ∧
      t2.signer = t.signer ∧
      t2.vector_transfer_id = t.vector_transfer_id ∧
      t2.remaining_collateral = t.remaining_collateral - f ∧
      t2.receipt_cache = cache1 ∧
      (t.vector_transfer_id.length = 32 →
        borrow.commitment.length = BORROWED_RECEIPT_LEN ∧
        commitmentTransferId borrow.commitment = t.vector_transfer_id ∧
        commitmentFee borrow.commitment = receipt.unlocked_fee + f ∧
        commitmentReceiptId borrow.commitment = receipt.receipt_id % 2 ^ 32 ∧
        commitmentUnlockedFee borrow.commitment = receipt.unlocked_fee) := by
  unfold commitTransfer at h
  by_cases hemp : t.receipt_cache.isEmpty
  · rw [if_pos hemp] at h
    have hnil : t.receipt_cache = [] := List.isEmpty_iff.mp hemp
    by_cases hmax : t.prev_receipt_id = MAX_RECEIPT_ID
    · rw [if_pos hmax] at h
      exact absurd h (by simp)
    · rw [if_neg hmax] at h
      simp only [] at h
      cases hfc : finishCommit C f
          (decide (t.remaining_collateral < t.low_collateral_threshold))
          (if t.prev_receipt_id = LOW_RECEIPT_CAPACITY then true
            else decide (t.remaining_collateral - f < t.low_collateral_threshold))
          ⟨0, t.prev_receipt_id + 1⟩
          { t with remaining_collateral := t.remaining_collateral - f
                   prev_receipt_id := t.prev_receipt_id + 1 } with
      | none =>
        rw [hfc] at h
        exact absurd h (by simp)
      | some pr =>
        obtain ⟨b2, t2b⟩ := pr
        rw [hfc] at h
        simp only [Option.map_some', Option.some.injEq, Except.ok.injEq,
          Prod.mk.injEq] at h
        obtain ⟨hb, ht2e⟩ := h
        rw [hb, ht2e] at hfc
        rcases finishCommit_ok hC hfc with ⟨hov, _, ht2, hfields⟩
        refine ⟨⟨0, t.prev_receipt_id + 1⟩, [],
          Or.inl ⟨hnil, rfl, rfl, hmax,
            by rw [ht2]; exact (warnUpdate_fields _ _).2.2.1⟩, hov,
          by rw [ht2]; exact (warnUpdate_fields _ _).1,
          by rw [ht2]; exact (warnUpdate_fields _ _).2.2.2.2.1,
          by rw [ht2]; exact (warnUpdate_fields _ _).2.2.2.2.2,
          by rw [ht2]; exact (warnUpdate_fields _ _).2.1,
          by rw [ht2]; exact ((warnUpdate_fields _ _).2.2.2.1).trans hnil,
          fun h32 => hfields h32⟩
  · rw [if_neg hemp] at h
    cases hsw : swapRemove t.receipt_cache (rand % t.receipt_cache.length) with
    | none =>
      rw [hsw] at h
      exact absurd h (by simp)
    | some pr =>
      obtain ⟨receipt, cache1⟩ := pr
      rw [hsw] at h
      simp only [] at h
      cases hfc : finishCommit C f
          (decide (t.remaining_collateral < t.low_collateral_threshold))
          (decide (t.remaining_collateral - f < t.low_collateral_threshold))
          receipt
          { t with remaining_collateral := t.remaining_collateral - f
                   receipt_cache := cache1 } with
      | none =>
        rw [hfc] at h
        exact absurd h (by simp)
      | some pr2 =>
        obtain ⟨b2, t2b⟩ := pr2
        rw [hfc] at h
        simp only [Option.map_some', Option.some.injEq, Except.ok.injEq,
          Prod.mk.injEq] at h
        obtain ⟨hb, ht2e⟩ := h
        rw [hb, ht2e] at hfc
        rcases finishCommit_ok hC hfc with ⟨hov, _, ht2, hfields⟩
        have hperm := (swapRemove_perm hsw).1
        refine ⟨receipt, cache1,
          Or.inr ⟨hperm, by rw [ht2]; exact (warnUpdate_fields _ _).2.2.1⟩, hov,
          by rw [ht2]; exact (warnUpdate_fields _ _).1,
          by rw [ht2]; exact (warnUpdate_fields _ _).2.2.2.2.1,
          by rw [ht2]; exact (warnUpdate_fields _ _).2.2.2.2.2,
          by rw [ht2]; exact (warnUpdate_fields _ _).2.1,
          by rw [ht2]; exact (warnUpdate_fields _ _).2.2.2.1,
          fun h32 => hfields h32⟩

theorem commitTransfer_error_iff {C : Crypto} {rand f : Nat} {t : Transfer} :
    commitTransfer C rand f t = some (Except.error BorrowFail.InsufficientCollateral) ↔
    t.receipt_cache = [] ∧ t.prev_receipt_id = MAX_RECEIPT_ID := by
  constructor
  · intro h
    unfold commitTransfer at h
    by_cases hemp : t.receipt_cache.isEmpty
    · rw [if_pos hemp] at h
      have hnil : t.receipt_cache = [] := List.isEmpty_iff.mp hemp
      by_cases hmax : t.prev_receipt_id = MAX_RECEIPT_ID
      · exact ⟨hnil, hmax⟩
      · exfalso
        rw [if_neg hmax] at h
        simp only [] at h
        cases hfc : finishCommit C f
            (decide (t.remaining_collateral < t.low_collateral_threshold))
            (if t.prev_receipt_id = LOW_RECEIPT_CAPACITY then true
              else decide (t.remaining_collateral - f < t.low_collateral_threshold))
            ⟨0, t.prev_receipt_id + 1⟩
            { t with remaining_collateral := t.remaining_collateral - f
                     prev_receipt_id := t.prev_receipt_id + 1 } with
        | none => rw [hfc] at h; simp at h
        | some pr => rw [hfc] at h; simp at h
    · exfalso
      rw [if_neg hemp] at h
      cases hsw : swapRemove t.receipt_cache (rand % t.receipt_cache.length) with
      | none => rw [hsw] at h; simp at h
      | some pr =>
        obtain ⟨receipt, cache1⟩ := pr
        rw [hsw] at h
        simp only [] at h
        cases hfc : finishCommit C f
            (decide (t.remaining_collateral < t.low_collateral_threshold))
            (decide (t.remaining_collateral - f < t.low_collateral_threshold))
            receipt
            { t with remaining_collateral := t.remaining_collateral - f
                     receipt_cache := cache1 } with
        | none => rw [hfc] at h; simp at h
        | some pr2 => rw [hfc] at h; simp at h
  · rintro ⟨hnil, hmax⟩
    unfold commitTransfer
    rw [if_pos (by rw [hnil]; rfl), if_pos hmax]

theorem commit_ok {C : Crypto} {rand f : Nat} {p : ReceiptPool}
    {borrow : ReceiptBorrow} {p' : ReceiptPool}
    (h : commit C rand p f = some (Except.ok (borrow, p'))) :
    ∃ i t t2, selectTransfer p f = some (i, t) ∧ p.transfers[i]? = some t ∧
      f ≤ t.remaining_collateral ∧
      commitTransfer C rand f t = some (Except.ok (borrow, t2)) ∧
      p' = ⟨p.transfers.set i t2⟩ := by
  unfold commit at h
  cases hsel : selectTransfer p f with
  | none =>
    rw [hsel] at h
    exact absurd h (by simp)
  | some it =>
    obtain ⟨i, t⟩ := it
    rw [hsel] at h
    simp only [] at h
    rcases selectTransfer_spec hsel with ⟨hget, hfee, _⟩
    cases hct : commitTransfer C rand f t with
    | none =>
      rw [hct] at h
      simp at h
    | some r =>
      rw [hct] at h
      cases r with
      | error e =>
        simp at h
      | ok pr =>
        obtain ⟨b2, t2⟩ := pr
        simp only [Option.some.injEq, Except.ok.injEq, Prod.mk.injEq] at h
        obtain ⟨hb, hp⟩ := h
        exact ⟨i, t, t2, rfl, hget, hfee, by rw [hct, hb], by rw [← hp]⟩

theorem commit_error_iff {C : Crypto} {rand f : Nat} {p : ReceiptPool} :
    commit C rand p f = some (Except.error BorrowFail.InsufficientCollateral) ↔
    selectTransfer p f = none ∨
      (∃ i t, selectTransfer p f = some (i, t) ∧ t.receipt_cache = [] ∧
        t.prev_receipt_id = MAX_RECEIPT_ID) := by
  unfold commit
  cases hsel : selectTransfer p f with
  | none => simp
  | some it =>
    obtain ⟨i, t⟩ := it
    constructor
    · intro h
      simp only [] at h
      cases hct : commitTransfer C rand f t with
      | none =>
        rw [hct] at h
        simp at h
      | some r =>
        rw [hct] at h
        cases r with
        | error e =>
          cases e
          exact Or.inr ⟨i, t, rfl, commitTransfer_error_iff.mp hct⟩
        | ok pr =>
          obtain ⟨b2, t2⟩ := pr
          simp at h
    · intro h
      rcases h with h | ⟨i0, t0, hsel0, hcache, hmax⟩
      · exact absurd h (by simp)
      · have hpq : ((i, t) : Nat × Transfer) = (i0, t0) :=
          (Option.some.injEq _ _).mp hsel0
        injection hpq with h1 h2
        subst h1
        subst h2
        simp only []
        rw [commitTransfer_error_iff.mpr ⟨hcache, hmax⟩]
/-! ### Characterization of release -/

theorem releaseTransfer_spec {t : Transfer} {locked unlocked rid : Nat}
    {status : QueryStatus} {t1 : Transfer}
    (h : releaseTransfer t locked unlocked rid status = some t1) :
    t1.initial_collateral = t.initial_collateral ∧
    t1.low_collateral_threshold = t.low_collateral_threshold ∧
    t1.prev_receipt_id = t.prev_receipt_id ∧
    t1.signer = t.signer ∧
    t1.vector_transfer_id = t.vector_transfer_id ∧
    ((status = QueryStatus.Success ∧ unlocked + locked < U256_BOUND ∧
       t1.remaining_collateral = t.remaining_collateral ∧
       t1.receipt_cache = t.receipt_cache ++ [⟨unlocked + locked, rid⟩]) ∨
     ((status = QueryStatus.Failure ∨ status = QueryStatus.Unknown) ∧
       t.remaining_collateral + locked < U256_BOUND ∧
       t1.remaining_collateral = t.remaining_collateral + locked ∧
       t1.receipt_cache = t.receipt_cache ++ [⟨unlocked, rid⟩])) := by
  cases status with
  | Success =>
    unfold releaseTransfer at h
    by_cases hov : U256_BOUND ≤ unlocked + locked
    · rw [if_pos hov] at h
      exact absurd h (by simp)
    · rw [if_neg hov] at h
      push_neg at hov
      simp only [Option.some.injEq] at h
      rw [← h]
      exact ⟨rfl, rfl, rfl, rfl, rfl, Or.inl ⟨rfl, hov, rfl, rfl⟩⟩
  | Failure =>
    unfold releaseTransfer at h
    by_cases hov : U256_BOUND ≤ t.remaining_collateral + locked
    · rw [if_pos hov] at h
      exact absurd h (by simp)
    · rw [if_neg hov] at h
      push_neg at hov
      simp only [Option.some.injEq] at h
      rw [← h]
      exact ⟨rfl, rfl, rfl, rfl, rfl, Or.inr ⟨Or.inl rfl, hov, rfl, rfl⟩⟩
  | Unknown =>
    unfold releaseTransfer at h
    by_cases hov : U256_BOUND ≤ t.remaining_collateral + locked
    · rw [if_pos hov] at h
      exact absurd h (by simp)
    · rw [if_neg hov] at h
      push_neg at hov
      simp only [Option.some.injEq] at h
      rw [← h]
      exact ⟨rfl, rfl, rfl, rfl, rfl, Or.inr ⟨Or.inr rfl, hov, rfl, rfl⟩⟩

theorem release_cases {p : ReceiptPool} {bytes : List Nat}
    {status : QueryStatus} {p' : ReceiptPool}
    (h : release p bytes status = some p') :
    bytes.length = BORROWED_RECEIPT_LEN ∧
    ((p.transfers.findIdx?
        (fun t => t.vector_transfer_id == commitmentTransferId bytes) = none ∧
      p' = p) ∨
     (∃ i t t1,
       p.transfers.findIdx?
         (fun t => t.vector_transfer_id == commitmentTransferId bytes) = some i ∧
       p.transfers[i]? = some t ∧
       t.vector_transfer_id = commitmentTransferId bytes ∧
       commitmentUnlockedFee bytes ≤ commitmentFee bytes ∧
       releaseTransfer t (commitmentFee bytes - commitmentUnlockedFee bytes)
         (commitmentUnlockedFee bytes) (commitmentReceiptId bytes) status
         = some t1 ∧
       p' = ⟨p.transfers.set i t1⟩)) := by
  unfold release at h
  by_cases hlen : bytes.length ≠ BORROWED_RECEIPT_LEN
  · rw [if_pos hlen] at h
    exact absurd h (by simp)
  · rw [if_neg hlen] at h
    push_neg at hlen
    refine ⟨hlen, ?_⟩
    cases hfind : p.transfers.findIdx?
        (fun t => t.vector_transfer_id == commitmentTransferId bytes) with
    | none =>
      rw [hfind] at h
      simp only [Option.some.injEq] at h
      exact Or.inl ⟨rfl, h.symm⟩
    | some i =>
      rw [hfind] at h
      simp only [] at h
      rcases findIdx?_some_spec hfind with ⟨t0, hget0, hbeq⟩
      cases hget : p.transfers[i]? with
      | none =>
        rw [hget] at h
        exact absurd h (by simp)
      | some t =>
        rw [hget] at h
        simp only [] at h
        have hteq : t0 = t := by
          rw [hget0] at hget
          exact (Option.some.injEq _ _).mp hget
        subst hteq
        by_cases hlt : commitmentFee bytes < commitmentUnlockedFee bytes
        · rw [if_pos hlt] at h
          exact absurd h (by simp)
        · rw [if_neg hlt] at h
          push_neg at hlt
          cases hrt : releaseTransfer t0
              (commitmentFee bytes - commitmentUnlockedFee bytes)
              (commitmentUnlockedFee bytes) (commitmentReceiptId bytes) status with
          | none =>
            rw [hrt] at h
            exact absurd h (by simp)
          | some t1 =>
            rw [hrt] at h
            simp only [Option.some.injEq] at h
            exact Or.inr ⟨i, t0, t1, rfl, hget0, by simpa using hbeq, hlt, hrt, h.symm⟩

theorem release_not_found {p : ReceiptPool} {bytes : List Nat}
    {status : QueryStatus} (hlen : bytes.length = BORROWED_RECEIPT_LEN)
    (habs : p.transfers.findIdx?
      (fun t => t.vector_transfer_id == commitmentTransferId bytes) = none) :
    release p bytes status = some p := by
  unfold release
  rw [if_neg (by rw [hlen]; simp), habs]

theorem release_found {p : ReceiptPool} {bytes : List Nat}
    {status : QueryStatus} {i : Nat} {t t1 : Transfer}
    (hlen : bytes.length = BORROWED_RECEIPT_LEN)
    (hfind : p.transfers.findIdx?
      (fun u => u.vector_transfer_id == commitmentTransferId bytes) = some i)
    (hget : p.transfers[i]? = some t)
    (hle : commitmentUnlockedFee bytes ≤ commitmentFee bytes)
    (hrt : releaseTransfer t (commitmentFee bytes - commitmentUnlockedFee bytes)
      (commitmentUnlockedFee bytes) (commitmentReceiptId bytes) status = some t1) :
    release p bytes status = some ⟨p.transfers.set i t1⟩ := by
  unfold release
  rw [if_neg (by rw [hlen]; simp), hfind]
  simp only []
  rw [hget]
  simp only []
  rw [if_neg (by omega), hrt]

/-! ### List helpers for the invariant -/

theorem nodup_getElem?_ne {β : Type} {l : List β} (h : l.Nodup) {i j : Nat}
    (hne : i ≠ j) {a b : β} (ha : l[i]? = some a) (hb : l[j]? = some b) :
    a ≠ b := by
  intro hab
  subst hab
  rcases Nat.lt_or_ge i j with hij | hij
  · have hjlt : j < l.length := (List.getElem?_eq_some.mp hb).1
    exact (List.nodup_iff_getElem?_ne_getElem?.mp h i j hij hjlt) (ha.trans hb.symm)
  · have hji : j < i := by omega
    have hilt : i < l.length := (List.getElem?_eq_some.mp ha).1
    exact (List.nodup_iff_getElem?_ne_getElem?.mp h j i hji hilt) (hb.trans ha.symm)

theorem set_of_getElem?_eq {β : Type} {l : List β} {i : Nat} {a : β}
    (h : l[i]? = some a) : l.set i a = l := by
  apply List.ext_getElem?
  intro n
  by_cases hn : i = n
  · subst hn
    rw [List.getElem?_set_self (List.getElem?_eq_some.mp h).1, h]
  · rw [List.getElem?_set_ne hn]

theorem mem_set_resolve {l : List Transfer} {i : Nat} {told tnew x : Transfer}
    (hnd : (l.map Transfer.vector_transfer_id).Nodup)
    (hget : l[i]? = some told)
    (hx : x ∈ l.set i tnew) :
    x = tnew ∨ (x ∈ l ∧ x.vector_transfer_id ≠ told.vector_transfer_id) := by
  rcases List.mem_iff_getElem?.mp hx with ⟨j, hj⟩
  by_cases hij : i = j
  · subst hij
    rw [List.getElem?_set_self (List.getElem?_eq_some.mp hget).1] at hj
    exact Or.inl ((Option.some.injEq _ _).mp hj).symm
  · rw [List.getElem?_set_ne hij] at hj
    refine Or.inr ⟨List.mem_iff_getElem?.mpr ⟨j, hj⟩, ?_⟩
    have hmi : (l.map Transfer.vector_transfer_id)[i]? = some told.vector_transfer_id := by
      rw [List.getElem?_map, hget]
      rfl
    have hmj : (l.map Transfer.vector_transfer_id)[j]? = some x.vector_transfer_id := by
      rw [List.getElem?_map, hj]
      rfl
    exact (nodup_getElem?_ne hnd (by omega : j ≠ i) hmj hmi)

theorem outFor_cons_pos {out : List (List Nat)} {b tid : List Nat}
    (h : commitmentTransferId b = tid) :
    outFor (b :: out) tid = b :: outFor out tid := by
  unfold outFor
  rw [List.filter_cons, if_pos (by simpa using h)]

theorem outFor_cons_neg {out : List (List Nat)} {b tid : List Nat}
    (h : commitmentTransferId b ≠ tid) :
    outFor (b :: out) tid = outFor out tid := by
  unfold outFor
  rw [List.filter_cons, if_neg (by simpa using h)]

theorem outFor_perm {out1 out2 : List (List Nat)} (h : out1.Perm out2)
    (tid : List Nat) : (outFor out1 tid).Perm (outFor out2 tid) :=
  List.Perm.filter _ h

theorem feeSum_perm {bs1 bs2 : List (List Nat)} (h : bs1.Perm bs2) :
    feeSum bs1 = feeSum bs2 :=
  (List.Perm.map commitmentFee h).sum_eq

theorem outIds_perm {out1 out2 : List (List Nat)} (h : out1.Perm out2)
    (tid : List Nat) : (outIds out1 tid).Perm (outIds out2 tid) :=
  List.Perm.map _ (outFor_perm h tid)

theorem cacheSum_perm {c1 c2 : List PooledReceipt} (h : c1.Perm c2)
    {t1 t2 : Transfer} (h1 : t1.receipt_cache = c1) (h2 : t2.receipt_cache = c2) :
    cacheSum t1 = cacheSum t2 := by
  unfold cacheSum
  rw [h1, h2]
  exact (List.Perm.map _ h).sum_eq

/-! ### Preservation of the global invariant -/

theorem inv_start : Inv ⟨⟨[]⟩, []⟩ := by
  refine ⟨by simp, by simp, by simp⟩

theorem inv_add {cfg : Config} {signer collateral : Nat} {tid : List Nat}
    (hI : Inv cfg) (htid : tid.length = 32)
    (hfresh : ∀ b ∈ cfg.outstanding, commitmentTransferId b ≠ tid) :
    Inv ⟨add_transfer cfg.pool signer collateral tid, cfg.outstanding⟩ := by
  unfold add_transfer
  by_cases hdup : cfg.pool.transfers.any (fun t => t.vector_transfer_id == tid)
  · rw [if_pos hdup]
    exact ⟨hI.tids_nodup, hI.out_ok, hI.per⟩
  · rw [if_neg hdup]
    have hnotin : ∀ t ∈ cfg.pool.transfers, t.vector_transfer_id ≠ tid := by
      simpa using hdup
    refine ⟨?_, hI.out_ok, ?_⟩
    · simp only [List.map_append, List.map_cons, List.map_nil]
      refine List.Nodup.append hI.tids_nodup (by simp) ?_
      intro a ha hb
      simp only [List.mem_singleton] at hb
      subst hb
      rcases List.mem_map.mp ha with ⟨t, ht, hv⟩
      exact hnotin t ht hv
    · intro t ht
      rcases List.mem_append.mp ht with ht | ht
      · exact hI.per t ht
      · simp only [List.mem_singleton] at ht
        subst ht
        have hempty : outFor cfg.outstanding tid = [] := by
          unfold outFor
          rw [List.filter_eq_nil_iff]
          intro b hb
          simpa using hfresh b hb
        refine ⟨?_, ?_, ?_, ?_, ?_, ?_⟩
        · simp only [outIds, hempty, cacheSum, feeSum]
          simp
        · simp [outIds, hempty, cacheIds]
        · simp [outIds, hempty, cacheIds]
        · simp [outIds, hempty, cacheIds]
        · simp [MAX_RECEIPT_ID]
        · exact htid

theorem inv_remove {cfg : Config} {tid : List Nat} (hI : Inv cfg) :
    Inv ⟨remove_transfer cfg.pool tid, cfg.outstanding⟩ := by
  unfold remove_transfer
  cases hfind : cfg.pool.transfers.findIdx?
      (fun t => t.vector_transfer_id == tid) with
  | none => exact hI
  | some i =>
    simp only []
    cases hsw : swapRemove cfg.pool.transfers i with
    | none => exact hI
    | some pr =>
      obtain ⟨x, rest⟩ := pr
      show Inv ⟨⟨rest⟩, cfg.outstanding⟩
      have hperm := (swapRemove_perm hsw).1
      refine ⟨?_, hI.out_ok, ?_⟩
      · have hmp := List.Perm.map Transfer.vector_transfer_id hperm
        have := hmp.nodup hI.tids_nodup
        exact (List.nodup_cons.mp this).2
      · intro t ht
        exact hI.per t (hperm.mem_iff.mpr (List.mem_cons_of_mem _ ht))

theorem feeSum_cons (b : List Nat) (bs : List (List Nat)) :
    feeSum (b :: bs) = commitmentFee b + feeSum bs := by
  simp [feeSum]

theorem inv_commit {C : Crypto} {cfg : Config} {rand f : Nat}
    {borrow : ReceiptBorrow} {pool' : ReceiptPool}
    (hC : GoodCrypto C) (hI : Inv cfg)
    (h : commit C rand cfg.pool f = some (Except.ok (borrow, pool'))) :
    Inv ⟨pool', borrow.commitment :: cfg.outstanding⟩ := by
  rcases commit_ok h with ⟨i, t, t2, hsel, hget, hfee, hct, hp⟩
  have htmem : t ∈ cfg.pool.transfers := List.mem_iff_getElem?.mpr ⟨i, hget⟩
  have hTI := hI.per t htmem
  rcases commitTransfer_ok hC hct with
    ⟨receipt, cache1, hsrc, hov, hinit, hsig, hvtid, hrem, hcache, hfields⟩
  rcases hfields hTI.tid_len with ⟨hlen, htidc, hfeec, hridc, hunlc⟩
  have hmaxlt : MAX_RECEIPT_ID < 2 ^ 32 := by
    simp only [MAX_RECEIPT_ID]
    norm_num
  have hridlt : receipt.receipt_id < 2 ^ 32 := by
    rcases hsrc with ⟨_, hrec, _, _, _⟩ | ⟨hperm, _⟩
    · rw [hrec]
      have hple := hTI.prev_le
      simp only []
      omega
    · have hmem : receipt ∈ t.receipt_cache := hperm.mem_iff.mpr (by simp)
      have hmemid : receipt.receipt_id ∈ cacheIds t :=
        List.mem_map.mpr ⟨receipt, hmem, rfl⟩
      have hle := hTI.ids_le_prev _ (List.mem_append.mpr (Or.inr hmemid))
      have hple := hTI.prev_le
      omega
  have hrid : commitmentReceiptId borrow.commitment = receipt.receipt_id := by
    rw [hridc, Nat.mod_eq_of_lt hridlt]
  subst hp
  refine ⟨?_, ?_, ?_⟩
  · show (List.map Transfer.vector_transfer_id (cfg.pool.transfers.set i t2)).Nodup
    rw [List.map_set]
    have hmv : (List.map Transfer.vector_transfer_id cfg.pool.transfers)[i]?
        = some t2.vector_transfer_id := by
      rw [List.getElem?_map, hget, hvtid]
      rfl
    rw [set_of_getElem?_eq hmv]
    exact hI.tids_nodup
  · intro b hb
    rcases List.mem_cons.mp hb with hb | hb
    · subst hb
      exact ⟨hlen, by rw [hfeec, hunlc]; omega⟩
    · exact hI.out_ok b hb
  · intro x hx
    rcases mem_set_resolve hI.tids_nodup hget hx with hx2 | ⟨hxmem, hxne⟩
    · -- the selected transfer, updated
      subst hx2
      have houtf : outFor (borrow.commitment :: cfg.outstanding) x.vector_transfer_id
          = borrow.commitment :: outFor cfg.outstanding t.vector_transfer_id := by
        rw [hvtid]
        exact outFor_cons_pos htidc
      have hOI : outIds (borrow.commitment :: cfg.outstanding) x.vector_transfer_id
          = receipt.receipt_id :: outIds cfg.outstanding t.vector_transfer_id := by
        rw [outIds, houtf, List.map_cons, hrid]
        rfl
      have hCI : cacheIds x = cache1.map PooledReceipt.receipt_id := by
        rw [cacheIds, hcache]
      have hcs2 : cacheSum x = (cache1.map PooledReceipt.unlocked_fee).sum := by
        rw [cacheSum, hcache]
      have hcons := hTI.conserve
      rcases hsrc with ⟨hnil, hrec, hc1, hmax, hprev⟩ | ⟨hperm, hprev⟩
      · -- fresh receipt id
        have hunl0 : receipt.unlocked_fee = 0 := by rw [hrec]
        have hrid1 : receipt.receipt_id = t.prev_receipt_id + 1 := by rw [hrec]
        have hcso : cacheSum t = 0 := by
          rw [cacheSum, hnil]
          rfl
        refine ⟨?_, ?_, ?_, ?_, ?_, ?_⟩
        · rw [hrem, hinit, houtf, feeSum_cons, hfeec, hcs2, hc1, hunl0]
          rw [hcso] at hcons
          simp only [List.map_nil, List.sum_nil]
          omega
        · rw [hOI, hCI, hc1, List.map_nil, List.append_nil]
          have hold := hTI.ids_nodup
          simp only [cacheIds, hnil, List.map_nil, List.append_nil] at hold
          refine List.nodup_cons.mpr ⟨?_, hold⟩
          intro hmem
          have := hTI.ids_le_prev _ (List.mem_append.mpr (Or.inl hmem))
          omega
        · intro r hr
          rw [hOI, hCI, hc1, List.map_nil, List.append_nil] at hr
          rcases List.mem_cons.mp hr with hr | hr
          · omega
          · exact hTI.ids_pos _ (List.mem_append.mpr (Or.inl hr))
        · intro r hr
          rw [hOI, hCI, hc1, List.map_nil, List.append_nil] at hr
          rw [hprev]
          rcases List.mem_cons.mp hr with hr | hr
          · omega
          · have := hTI.ids_le_prev _ (List.mem_append.mpr (Or.inl hr))
            omega
        · rw [hprev]
          have := hTI.prev_le
          simp only [MAX_RECEIPT_ID] at this hmax ⊢
          omega
        · rw [hvtid]
          exact hTI.tid_len
      · -- recycled receipt from the cache
        have hcs : cacheSum t
            = receipt.unlocked_fee + (cache1.map PooledReceipt.unlocked_fee).sum := by
          rw [cacheSum]
          have := (List.Perm.map PooledReceipt.unlocked_fee hperm).sum_eq
          simpa using this
        have hciperm : (cacheIds t).Perm
            (receipt.receipt_id :: cache1.map PooledReceipt.receipt_id) := by
          have := List.Perm.map PooledReceipt.receipt_id hperm
          simpa [cacheIds] using this
        refine ⟨?_, ?_, ?_, ?_, ?_, ?_⟩
        · rw [hrem, hinit, houtf, feeSum_cons, hfeec, hcs2]
          rw [hcs] at hcons
          omega
        · rw [hOI, hCI]
          have hold := hTI.ids_nodup
          have hstep : (outIds cfg.outstanding t.vector_transfer_id ++ cacheIds t).Perm
              (receipt.receipt_id :: (outIds cfg.outstanding t.vector_transfer_id
                ++ cache1.map PooledReceipt.receipt_id)) := by
            have h1 := List.Perm.append_left
              (outIds cfg.outstanding t.vector_transfer_id) hciperm
            exact h1.trans List.perm_middle
          exact (hstep.nodup hold)
        · intro r hr
          rcases List.mem_cons.mp (by
            rw [hOI, hCI] at hr
            exact hr) with hr2 | hr2
          · subst hr2
            have hmem : receipt ∈ t.receipt_cache := hperm.mem_iff.mpr (by simp)
            exact hTI.ids_pos _ (List.mem_append.mpr
              (Or.inr (List.mem_map.mpr ⟨receipt, hmem, rfl⟩)))
          · rcases List.mem_append.mp hr2 with hr3 | hr3
            · exact hTI.ids_pos _ (List.mem_append.mpr (Or.inl hr3))
            · rcases List.mem_map.mp hr3 with ⟨q, hq, hqe⟩
              have hqmem : q ∈ t.receipt_cache :=
                hperm.mem_iff.mpr (List.mem_cons_of_mem _ hq)
              exact hTI.ids_pos _ (List.mem_append.mpr
                (Or.inr (List.mem_map.mpr ⟨q, hqmem, hqe⟩)))
        · intro r hr
          rw [hprev]
          rcases List.mem_cons.mp (by
            rw [hOI, hCI] at hr
            exact hr) with hr2 | hr2
          · subst hr2
            have hmem : receipt ∈ t.receipt_cache := hperm.mem_iff.mpr (by simp)
            exact hTI.ids_le_prev _ (List.mem_append.mpr
              (Or.inr (List.mem_map.mpr ⟨receipt, hmem, rfl⟩)))
          · rcases List.mem_append.mp hr2 with hr3 | hr3
            · exact hTI.ids_le_prev _ (List.mem_append.mpr (Or.inl hr3))
            · rcases List.mem_map.mp hr3 with ⟨q, hq, hqe⟩
              have hqmem : q ∈ t.receipt_cache :=
                hperm.mem_iff.mpr (List.mem_cons_of_mem _ hq)
              exact hTI.ids_le_prev _ (List.mem_append.mpr
                (Or.inr (List.mem_map.mpr ⟨q, hqmem, hqe⟩)))
        · rw [hprev]
          exact hTI.prev_le
        · rw [hvtid]
          exact hTI.tid_len
    · -- an unrelated transfer
      have hxI := hI.per x hxmem
      have htne : commitmentTransferId borrow.commitment ≠ x.vector_transfer_id := by
        rw [htidc]
        exact fun hh => hxne hh.symm
      have houtf : outFor (borrow.commitment :: cfg.outstanding) x.vector_transfer_id
          = outFor cfg.outstanding x.vector_transfer_id := outFor_cons_neg htne
      have hOIe : outIds (borrow.commitment :: cfg.outstanding) x.vector_transfer_id
          = outIds cfg.outstanding x.vector_transfer_id := by
        rw [outIds, houtf]
        rfl
      exact ⟨by rw [houtf]; exact hxI.conserve,
        by rw [hOIe]; exact hxI.ids_nodup,
        by rw [hOIe]; exact hxI.ids_pos,
        by rw [hOIe]; exact hxI.ids_le_prev,
        hxI.prev_le, hxI.tid_len⟩

theorem perm_cons_erase_commitment {l : List (List Nat)} {b : List Nat}
    (h : b ∈ l) : l.Perm (b :: l.erase b) := by
  induction l with
  | nil => cases h
  | cons x xs ih =>
    rw [List.erase_cons]
    by_cases hxb : x == b
    · rw [if_pos hxb]
      have : x = b := by simpa using hxb
      rw [this]
    · rw [if_neg hxb]
      have hbxs : b ∈ xs := by
        rcases List.mem_cons.mp h with hh | hh
        · exact absurd (by rw [hh]; exact beq_self_eq_true x) hxb
        · exact hh
      exact ((ih hbxs).cons x).trans (List.Perm.swap b x _)

theorem transferInv_of_outPerm {out1 out2 : List (List Nat)} {t : Transfer}
    (hp : (outFor out1 t.vector_transfer_id).Perm (outFor out2 t.vector_transfer_id))
    (hTI : TransferInv out1 t) : TransferInv out2 t := by
  have hip : (outIds out1 t.vector_transfer_id).Perm
      (outIds out2 t.vector_transfer_id) := List.Perm.map _ hp
  have hap : (outIds out1 t.vector_transfer_id ++ cacheIds t).Perm
      (outIds out2 t.vector_transfer_id ++ cacheIds t) :=
    List.Perm.append_right (cacheIds t) hip
  refine ⟨?_, hap.nodup hTI.ids_nodup, ?_, ?_, hTI.prev_le, hTI.tid_len⟩
  · rw [← feeSum_perm hp]
    exact hTI.conserve
  · intro r hr
    exact hTI.ids_pos r (hap.mem_iff.mpr hr)
  · intro r hr
    exact hTI.ids_le_prev r (hap.mem_iff.mpr hr)

theorem inv_release {cfg : Config} {bytes : List Nat} {status : QueryStatus}
    {pool' : ReceiptPool}
    (hI : Inv cfg) (hmem : bytes ∈ cfg.outstanding)
    (h : release cfg.pool bytes status = some pool') :
    Inv ⟨pool', cfg.outstanding.erase bytes⟩ := by
  have hoperm : cfg.outstanding.Perm (bytes :: cfg.outstanding.erase bytes) :=
    perm_cons_erase_commitment hmem
  have hok := hI.out_ok bytes hmem
  rcases release_cases h with ⟨hlen, hcase⟩
  rcases hcase with ⟨hfind, hpe⟩ | ⟨i, t, t1, hfind, hget, hvt, hle, hrt, hpe⟩
  · -- the decoded transfer id is not installed: the receipt is dropped
    subst hpe
    have hnone := List.findIdx?_eq_none_iff.mp hfind
    refine ⟨hI.tids_nodup, ?_, ?_⟩
    · intro b hb
      exact hI.out_ok b (List.mem_of_mem_erase hb)
    · intro x hx
      have hxI := hI.per x hx
      have hbne : commitmentTransferId bytes ≠ x.vector_transfer_id := by
        have h0 := hnone x hx
        simp only [beq_eq_false_iff_ne, ne_eq] at h0
        exact fun hh => h0 hh.symm
      have hp1 : (outFor cfg.outstanding x.vector_transfer_id).Perm
          (outFor (cfg.outstanding.erase bytes) x.vector_transfer_id) := by
        have hq := outFor_perm hoperm x.vector_transfer_id
        rwa [outFor_cons_neg hbne] at hq
      exact transferInv_of_outPerm hp1 hxI
  · -- the transfer is installed: funds return per status
    subst hpe
    have htmem : t ∈ cfg.pool.transfers := List.mem_iff_getElem?.mpr ⟨i, hget⟩
    have hTI := hI.per t htmem
    rcases releaseTransfer_spec hrt with ⟨hinit, hthr, hprev, hsig, hvtid, hcase2⟩
    have hbmatch : commitmentTransferId bytes = t.vector_transfer_id := hvt.symm
    have hp2 : (outFor cfg.outstanding t.vector_transfer_id).Perm
        (bytes :: outFor (cfg.outstanding.erase bytes) t.vector_transfer_id) := by
      have hq := outFor_perm hoperm t.vector_transfer_id
      rwa [outFor_cons_pos hbmatch] at hq
    have hfs : feeSum (outFor cfg.outstanding t.vector_transfer_id)
        = commitmentFee bytes
          + feeSum (outFor (cfg.outstanding.erase bytes) t.vector_transfer_id) := by
      rw [feeSum_perm hp2, feeSum_cons]
    have hoip : (outIds cfg.outstanding t.vector_transfer_id).Perm
        (commitmentReceiptId bytes
          :: outIds (cfg.outstanding.erase bytes) t.vector_transfer_id) := by
      have hq := List.Perm.map commitmentReceiptId hp2
      simpa [outIds] using hq
    have hcons := hTI.conserve
    -- the receipt pushed into the cache carries the decoded receipt id
    have hci : cacheIds t1 = cacheIds t ++ [commitmentReceiptId bytes] := by
      rcases hcase2 with ⟨_, _, _, hc⟩ | ⟨_, _, _, hc⟩ <;>
        simp [cacheIds, hc]
    have hidsperm :
        (outIds (cfg.outstanding.erase bytes) t.vector_transfer_id ++ cacheIds t1).Perm
        (outIds cfg.outstanding t.vector_transfer_id ++ cacheIds t) := by
      rw [hci, ← List.append_assoc]
      refine List.Perm.trans (List.perm_append_singleton _ _) ?_
      refine List.Perm.trans ?_ ((hoip.symm).append_right (cacheIds t))
      exact List.Perm.refl _
    refine ⟨?_, ?_, ?_⟩
    · show (List.map Transfer.vector_transfer_id (cfg.pool.transfers.set i t1)).Nodup
      rw [List.map_set]
      have hmv : (List.map Transfer.vector_transfer_id cfg.pool.transfers)[i]?
          = some t1.vector_transfer_id := by
        rw [List.getElem?_map, hget, hvtid]
        rfl
      rw [set_of_getElem?_eq hmv]
      exact hI.tids_nodup
    · intro b hb
      exact hI.out_ok b (List.mem_of_mem_erase hb)
    · intro x hx
      rcases mem_set_resolve hI.tids_nodup hget hx with hx2 | ⟨hxmem, hxne⟩
      · -- the transfer that received the release
        subst hx2
        refine ⟨?_, ?_, ?_, ?_, by rw [hprev]; exact hTI.prev_le,
          by rw [hvtid]; exact hTI.tid_len⟩
        · -- conservation
          show x.remaining_collateral
              + feeSum (outFor (cfg.outstanding.erase bytes) x.vector_transfer_id)
              + cacheSum x = x.initial_collateral
          rw [hvtid, hinit]
          rcases hcase2 with ⟨_, hov, hremx, hc⟩ | ⟨_, hov, hremx, hc⟩
          · have hcsx : cacheSum x = cacheSum t
                + (commitmentUnlockedFee bytes
                  + (commitmentFee bytes - commitmentUnlockedFee bytes)) := by
              simp [cacheSum, hc]
            rw [hremx, hcsx]
            omega
          · have hcsx : cacheSum x = cacheSum t + commitmentUnlockedFee bytes := by
              simp [cacheSum, hc]
            rw [hremx, hcsx]
            omega
        · show (outIds (cfg.outstanding.erase bytes) x.vector_transfer_id
              ++ cacheIds x).Nodup
          rw [hvtid]
          exact hidsperm.symm.nodup hTI.ids_nodup
        · intro r hr
          rw [hvtid] at hr
          exact hTI.ids_pos r (hidsperm.mem_iff.mp hr)
        · intro r hr
          rw [hvtid] at hr
          rw [hprev]
          exact hTI.ids_le_prev r (hidsperm.mem_iff.mp hr)
      · -- an unrelated transfer
        have hxI := hI.per x hxmem
        have hbne : commitmentTransferId bytes ≠ x.vector_transfer_id := by
          rw [hbmatch]
          exact fun hh => hxne hh.symm
        have hp1 : (outFor cfg.outstanding x.vector_transfer_id).Perm
            (outFor (cfg.outstanding.erase bytes) x.vector_transfer_id) := by
          have hq := outFor_perm hoperm x.vector_transfer_id
          rwa [outFor_cons_neg hbne] at hq
        exact transferInv_of_outPerm hp1 hxI

/-- Every configuration reachable by guarded steps satisfies the global
invariant. -/
theorem greach_inv {C : Crypto} {cfg : Config} (hC : GoodCrypto C)
    (h : GReach C cfg) : Inv cfg := by
  induction h with
  | start => exact inv_start
  | step hr hs ih =>
    cases hs with
    | add signer collateral tid cfg' htid hcoll hfresh heq =>
      subst heq
      exact inv_add ih htid hfresh
    | remove tid cfg' heq =>
      subst heq
      exact inv_remove ih
    | commit rand locked_fee borrow pool' cfg' hcm heq =>
      subst heq
      exact inv_commit hC ih hcm
    | release bytes status pool' cfg' hmem hrel heq =>
      subst heq
      exact inv_release ih hmem hrel

/-! ### Voucher lemmas -/

theorem processReceipts_total {C : Crypto} {aid : List Nat} {sg : Nat} :
    ∀ (chunks : List (List Nat)) (prev : List Nat) (total T : Nat),
    processReceipts C aid sg prev total chunks = Except.ok T →
    T = chunks.foldl (fun tot c => saturatingAdd tot (recordPayment c)) total := by
  intro chunks
  induction chunks with
  | nil =>
    intro prev total T h
    simp only [processReceipts] at h
    simp [(Except.ok.injEq _ _).mp h]
  | cons c rest ih =>
    intro prev total T h
    simp only [processReceipts] at h
    by_cases hord : bytesLt prev (recordReceiptId c)
    · rw [if_neg (by simp [hord])] at h
      cases hparse : C.parseCompact ((slice c 47 112).take 64) with
      | none =>
        rw [hparse] at h
        exact absurd h (by simp)
      | some sig =>
        rw [hparse] at h
        simp only [] at h
        by_cases hver : C.verify (C.keccak256 (aid ++ slice c 0 47)) sig sg
        · rw [if_neg (by simp [hver])] at h
          simpa using ih _ _ _ h
        · rw [if_pos (by simp [hver])] at h
          exact absurd h (by simp)
    · rw [if_pos (by simp [hord])] at h
      exact absurd h (by simp)

theorem processReceipts_passes {C : Crypto} {aid : List Nat} {sg : Nat} :
    ∀ (chunks : List (List Nat)),
    (∀ c ∈ chunks, chunkPasses C aid sg c = true) →
    ∀ (prev : List Nat) (total : Nat),
      (ascendingFrom prev (chunks.map recordReceiptId) = true →
        processReceipts C aid sg prev total chunks
          = Except.ok (chunks.foldl
              (fun tot c => saturatingAdd tot (recordPayment c)) total)) ∧
      (ascendingFrom prev (chunks.map recordReceiptId) = false →
        processReceipts C aid sg prev total chunks
          = Except.error VoucherError.UnorderedReceipts) := by
  intro chunks
  induction chunks with
  | nil =>
    intro _ prev total
    refine ⟨fun _ => rfl, fun hf => ?_⟩
    simp [ascendingFrom] at hf
  | cons c rest ih =>
    intro hpass prev total
    have hc := hpass c (by simp)
    have hrest : ∀ x ∈ rest, chunkPasses C aid sg x = true :=
      fun x hx => hpass x (List.mem_cons_of_mem _ hx)
    cases hparse : C.parseCompact ((slice c 47 112).take 64) with
    | none =>
      exfalso
      unfold chunkPasses at hc
      rw [hparse] at hc
      simp at hc
    | some sig =>
      have hver : C.verify (C.keccak256 (aid ++ slice c 0 47)) sig sg = true := by
        unfold chunkPasses at hc
        rw [hparse] at hc
        exact hc
      by_cases hord : bytesLt prev (recordReceiptId c)
      · constructor
        · intro hasc
          simp only [processReceipts]
          rw [if_neg (by simp [hord]), hparse]
          simp only []
          rw [if_neg (by simp [hver])]
          simp only [List.map_cons, ascendingFrom, hord, Bool.true_and] at hasc
          simpa using (ih hrest (recordReceiptId c)
            (saturatingAdd total (recordPayment c))).1 hasc
        · intro hasc
          simp only [processReceipts]
          rw [if_neg (by simp [hord]), hparse]
          simp only []
          rw [if_neg (by simp [hver])]
          simp only [List.map_cons, ascendingFrom, hord, Bool.true_and] at hasc
          simpa using (ih hrest (recordReceiptId c)
            (saturatingAdd total (recordPayment c))).2 hasc
      · constructor
        · intro hasc
          exfalso
          simp only [List.map_cons, ascendingFrom] at hasc
          rw [Bool.and_eq_true] at hasc
          exact hord hasc.1
        · intro _
          simp only [processReceipts]
          rw [if_pos (by simp [hord])]

theorem receipts_to_voucher_ok {C : Crypto} {aid : List Nat} {asg vsg : Nat}
    {data v : List Nat}
    (h : receipts_to_voucher C aid asg vsg data = Except.ok v) :
    data.length % VOUCHER_RECORD_SIZE = 0 ∧
    voucherTotal data ≠ 0 ∧
    v = aid ++ to_be_bytes (voucherTotal data)
        ++ C.sign65 (aid ++ to_be_bytes (voucherTotal data)) vsg := by
  unfold receipts_to_voucher at h
  by_cases hlen : data.length % VOUCHER_RECORD_SIZE ≠ 0
  · rw [if_pos hlen] at h
    exact absurd h (by simp)
  · rw [if_neg hlen] at h
    push_neg at hlen
    cases hpr : processReceipts C aid asg (List.replicate 15 0) 0
        (chunksExact VOUCHER_RECORD_SIZE data) with
    | error e =>
      rw [hpr] at h
      exact absurd h (by simp)
    | ok total =>
      rw [hpr] at h
      simp only [] at h
      have htot : total = voucherTotal data :=
        processReceipts_total _ _ _ _ hpr
      by_cases hz : total = 0
      · rw [if_pos hz] at h
        exact absurd h (by simp)
      · rw [if_neg hz] at h
        simp only [Except.ok.injEq] at h
        subst htot
        exact ⟨hlen, hz, h.symm⟩

theorem receipts_to_voucher_unordered_iff {C : Crypto} {aid : List Nat}
    {asg vsg : Nat} {data : List Nat}
    (hlen : data.length % VOUCHER_RECORD_SIZE = 0)
    (hpass : ∀ c ∈ chunksExact VOUCHER_RECORD_SIZE data,
      chunkPasses C aid asg c = true) :
    receipts_to_voucher C aid asg vsg data
        = Except.error VoucherError.UnorderedReceipts ↔
      ascendingFrom (List.replicate 15 0) (voucherIds data) = false := by
  unfold receipts_to_voucher
  rw [if_neg (by omega)]
  have hp := processReceipts_passes (chunksExact VOUCHER_RECORD_SIZE data) hpass
    (List.replicate 15 0) 0
  by_cases hasc : ascendingFrom (List.replicate 15 0) (voucherIds data) = true
  · rw [hp.1 (by simpa [voucherIds] using hasc)]
    simp only []
    constructor
    · intro hcontra
      by_cases hz : (chunksExact VOUCHER_RECORD_SIZE data).foldl
          (fun tot c => saturatingAdd tot (recordPayment c)) 0 = 0
      · rw [if_pos hz] at hcontra
        exact absurd hcontra (by simp)
      · rw [if_neg hz] at hcontra
        exact absurd hcontra (by simp)
    · intro hcontra
      rw [hasc] at hcontra
      exact absurd hcontra (by simp)
  · have hf : ascendingFrom (List.replicate 15 0) (voucherIds data) = false := by
      simpa using hasc
    rw [hp.2 (by simpa [voucherIds] using hf)]
    exact ⟨fun _ => hf, fun _ => rfl⟩

theorem receipts_to_voucher_zero {C : Crypto} {aid : List Nat}
    {asg vsg : Nat} {data : List Nat}
    (hlen : data.length % VOUCHER_RECORD_SIZE = 0)
    (hpass : ∀ c ∈ chunksExact VOUCHER_RECORD_SIZE data,
      chunkPasses C aid asg c = true)
    (hasc : ascendingFrom (List.replicate 15 0) (voucherIds data) = true)
    (hz : voucherTotal data = 0) :
    receipts_to_voucher C aid asg vsg data = Except.error VoucherError.NoValue := by
  unfold receipts_to_voucher
  rw [if_neg (by omega)]
  have hp := processReceipts_passes (chunksExact VOUCHER_RECORD_SIZE data) hpass
    (List.replicate 15 0) 0
  rw [hp.1 (by simpa [voucherIds] using hasc)]
  simp only []
  rw [if_pos (by simpa [voucherTotal] using hz)]

/-! ### The low-collateral warning measure -/

theorem finishCommit_warn {C : Crypto} {f : Nat} {lb ln : Bool}
    {receipt : PooledReceipt} {t1 : Transfer} {borrow : ReceiptBorrow}
    {t2 : Transfer}
    (h : finishCommit C f lb ln receipt t1 = some (borrow, t2)) :
    borrow.low_collateral_warning = (lb != ln) ∧
    t2 = (if lb != ln then { t1 with low_collateral_threshold := 0 } else t1) := by
  unfold finishCommit at h
  by_cases hov : U256_BOUND ≤ receipt.unlocked_fee + f
  · rw [if_pos hov] at h
    exact absurd h (by simp)
  · rw [if_neg hov] at h
    simp only [] at h
    cases hrec : normalizeRecoveryId (C.signRecoverable t1.signer
        (C.keccak256 (to_be_bytes (receipt.unlocked_fee + f) ++
          natToBeBytes 4 receipt.receipt_id))).2 with
    | none =>
      rw [hrec] at h
      exact absurd h (by simp)
    | some v =>
      rw [hrec] at h
      simp only [Option.some.injEq, Prod.mk.injEq] at h
      obtain ⟨hb, ht2⟩ := h
      exact ⟨by rw [← hb], by rw [← ht2]⟩

theorem commitTransfer_warn {C : Crypto} {rand f : Nat} {t : Transfer}
    {borrow : ReceiptBorrow} {t2 : Transfer}
    (h : commitTransfer C rand f t = some (Except.ok (borrow, t2))) :
    warnBudget t2 + (if borrow.low_collateral_warning then 1 else 0)
      ≤ warnBudget t := by
  unfold commitTransfer at h
  by_cases hemp : t.receipt_cache.isEmpty
  · rw [if_pos hemp] at h
    by_cases hmax : t.prev_receipt_id = MAX_RECEIPT_ID
    · rw [if_pos hmax] at h
      exact absurd h (by simp)
    · rw [if_neg hmax] at h
      simp only [] at h
      cases hfc : finishCommit C f
          (decide (t.remaining_collateral < t.low_collateral_threshold))
          (if t.prev_receipt_id = LOW_RECEIPT_CAPACITY then true
            else decide (t.remaining_collateral - f < t.low_collateral_threshold))
          ⟨0, t.prev_receipt_id + 1⟩
          { t with remaining_collateral := t.remaining_collateral - f
                   prev_receipt_id := t.prev_receipt_id + 1 } with
      | none =>
        rw [hfc] at h
        exact absurd h (by simp)
      | some pr =>
        obtain ⟨b2, t2b⟩ := pr
        rw [hfc] at h
        simp only [Option.map_some', Option.some.injEq, Except.ok.injEq,
          Prod.mk.injEq] at h
        obtain ⟨hb, ht2e⟩ := h
        rw [hb, ht2e] at hfc
        rcases finishCommit_warn hfc with ⟨hwarn, ht2⟩
        have hb2 : warnBudget t2
            = (if borrow.low_collateral_warning = true then 0
                else if 0 < t.low_collateral_threshold then 1 else 0)
              + (if t.prev_receipt_id + 1 ≤ LOW_RECEIPT_CAPACITY then 1 else 0) := by
          rw [ht2, ← hwarn]
          by_cases hw : borrow.low_collateral_warning = true <;>
            simp [warnBudget, hw]
        rw [hb2]
        unfold warnBudget
        by_cases hw : borrow.low_collateral_warning = true
        · have hbne : (decide (t.remaining_collateral < t.low_collateral_threshold)
              != (if t.prev_receipt_id = LOW_RECEIPT_CAPACITY then true
                  else decide (t.remaining_collateral - f
                    < t.low_collateral_threshold))) = true := by
            rw [← hwarn]
            exact hw
          simp [hw]
          by_cases h1 : t.remaining_collateral < t.low_collateral_threshold <;>
            by_cases h2 : t.prev_receipt_id = LOW_RECEIPT_CAPACITY <;>
              by_cases h3 : t.remaining_collateral - f < t.low_collateral_threshold <;>
                simp [h1, h2, h3] at hbne <;>
                split_ifs <;> omega
        · simp [hw]
          split_ifs <;> omega
  · rw [if_neg hemp] at h
    cases hsw : swapRemove t.receipt_cache (rand % t.receipt_cache.length) with
    | none =>
      rw [hsw] at h
      exact absurd h (by simp)
    | some pr =>
      obtain ⟨receipt, cache1⟩ := pr
      rw [hsw] at h
      simp only [] at h
      cases hfc : finishCommit C f
          (decide (t.remaining_collateral < t.low_collateral_threshold))
          (decide (t.remaining_collateral - f < t.low_collateral_threshold))
          receipt
          { t with remaining_collateral := t.remaining_collateral - f
                   receipt_cache := cache1 } with
      | none =>
        rw [hfc] at h
        exact absurd h (by simp)
      | some pr2 =>
        obtain ⟨b2, t2b⟩ := pr2
        rw [hfc] at h
        simp only [Option.map_some', Option.some.injEq, Except.ok.injEq,
          Prod.mk.injEq] at h
        obtain ⟨hb, ht2e⟩ := h
        rw [hb, ht2e] at hfc
        rcases finishCommit_warn hfc with ⟨hwarn, ht2⟩
        have hb2 : warnBudget t2
            = (if borrow.low_collateral_warning = true then 0
                else if 0 < t.low_collateral_threshold then 1 else 0)
              + (if t.prev_receipt_id ≤ LOW_RECEIPT_CAPACITY then 1 else 0) := by
          rw [ht2, ← hwarn]
          by_cases hw : borrow.low_collateral_warning = true <;>
            simp [warnBudget, hw]
        rw [hb2]
        unfold warnBudget
        by_cases hw : borrow.low_collateral_warning = true
        · have hbne : (decide (t.remaining_collateral < t.low_collateral_threshold)
              != decide (t.remaining_collateral - f
                < t.low_collateral_threshold)) = true := by
            rw [← hwarn]
            exact hw
          simp [hw]
          by_cases h1 : t.remaining_collateral < t.low_collateral_threshold <;>
            by_cases h3 : t.remaining_collateral - f < t.low_collateral_threshold <;>
              simp [h1, h3] at hbne <;>
              split_ifs <;> omega
        · simp [hw]

theorem applyOp_release_eq (C : Crypto) (t : Transfer)
    (locked unlocked rid : Nat) (status : QueryStatus) :
    applyOp C t (TransferOp.releaseOp locked unlocked rid status)
      = ((releaseTransfer t locked unlocked rid status).getD t, false) := by
  simp only [applyOp]
  cases releaseTransfer t locked unlocked rid status <;> rfl

theorem applyOp_warnBudget (C : Crypto) (t : Transfer) (op : TransferOp) :
    warnBudget (applyOp C t op).1 + (if (applyOp C t op).2 then 1 else 0)
      ≤ warnBudget t := by
  cases op with
  | commitOp rand f =>
    simp only [applyOp]
    by_cases hlt : t.remaining_collateral < f
    · simp only [if_pos hlt]
      simp
    · simp only [if_neg hlt]
      cases hr : commitTransfer C rand f t with
      | none => simp
      | some r =>
        cases r with
        | error e => simp
        | ok pr =>
          obtain ⟨borrow, t2⟩ := pr
          simp only []
          exact commitTransfer_warn hr
  | releaseOp locked unlocked rid status =>
    rw [applyOp_release_eq]
    cases hr : releaseTransfer t locked unlocked rid status with
    | none => simp
    | some t1 =>
      simp only [Option.getD_some, Bool.false_eq_true, if_false, Nat.add_zero]
      rcases releaseTransfer_spec hr with ⟨_, hthr, hprev, _, _, _⟩
      unfold warnBudget
      rw [hthr, hprev]

theorem warnCount_le_budget (C : Crypto) :
    ∀ (ops : List TransferOp) (t : Transfer), warnCount C t ops ≤ warnBudget t := by
  intro ops
  induction ops with
  | nil =>
    intro t
    simp [warnCount]
  | cons op rest ih =>
    intro t
    unfold warnCount
    have h1 := applyOp_warnBudget C t op
    have h2 := ih (applyOp C t op).1
    omega

theorem warnBudget_le_two (t : Transfer) : warnBudget t ≤ 2 := by
  unfold warnBudget
  by_cases h1 : 0 < t.low_collateral_threshold <;>
    by_cases h2 : t.prev_receipt_id ≤ LOW_RECEIPT_CAPACITY <;>
      simp [h1, h2]

def c7transfer (k : Nat) : Transfer :=
  { initial_collateral := 4
    low_collateral_threshold := 0
    remaining_collateral := 0
    prev_receipt_id := k
    receipt_cache := []
    signer := 0
    vector_transfer_id := List.replicate 32 0 }

def c7pool (k : Nat) : ReceiptPool := ⟨[c7transfer k]⟩

def c7bytes (k : Nat) : List Nat :=
  List.replicate 32 0 ++ to_be_bytes 0 ++ natToBeBytes 4 (k + 1) ++
    List.replicate 64 0 ++ [27] ++ to_be_bytes 0

theorem c7_commitTransfer (k : Nat) (hk : k ≠ MAX_RECEIPT_ID) :
    commitTransfer trivialCrypto 0 0 (c7transfer k)
      = some (Except.ok
          (⟨c7bytes k, if k = LOW_RECEIPT_CAPACITY then true else false⟩,
            c7transfer (k + 1))) := by
  unfold commitTransfer
  rw [if_pos (by rfl)]
  simp only [c7transfer]
  rw [if_neg hk]
  unfold finishCommit
  rw [if_neg (by norm_num [U256_BOUND])]
  simp only [trivialCrypto, normalizeRecoveryId, if_pos rfl]
  by_cases hcap : k = LOW_RECEIPT_CAPACITY
  · rw [if_pos hcap]
    simp only [hcap, if_pos rfl]
    rfl
  · rw [if_neg hcap, if_neg hcap]
    rfl

theorem c7_step (k : Nat) (hk : k ≠ MAX_RECEIPT_ID) :
    poolCommitStep trivialCrypto 0 (c7pool k) = c7pool (k + 1) ∧
    warnOf (commit trivialCrypto 0 (c7pool k) 0)
      = (if k = LOW_RECEIPT_CAPACITY then true else false) := by
  have hsel : selectTransfer (c7pool k) 0 = some (0, c7transfer k) := rfl
  have hcm : commit trivialCrypto 0 (c7pool k) 0
      = some (Except.ok
          (⟨c7bytes k, if k = LOW_RECEIPT_CAPACITY then true else false⟩,
            c7pool (k + 1))) := by
    unfold commit
    rw [hsel]
    simp only []
    rw [c7_commitTransfer k hk]
    rfl
  unfold poolCommitStep warnOf
  rw [hcm]
  exact ⟨rfl, rfl⟩

theorem c7_iter (n : Nat) : ∀ (k : Nat), k + n ≤ MAX_RECEIPT_ID →
    poolCommitIter trivialCrypto 0 n (c7pool k) = c7pool (k + n) := by
  induction n with
  | zero => intro k _; rfl
  | succ m ih =>
    intro k hk
    unfold poolCommitIter
    rw [(c7_step k (by omega)).1, ih (k + 1) (by omega)]
    congr 1
    omega

/-!  ## The claims

For each claim of the specification: its theorem, and where the claim as
written fails, a concrete counterexample next to the corrected statement. -/

/-- The concrete evaluation instance satisfies the crypto library
guarantees. -/
theorem trivialCrypto_good : GoodCrypto trivialCrypto :=
  ⟨fun _ => rfl, fun _ _ => rfl, fun _ _ => Or.inl rfl, fun _ _ => rfl⟩

/-- An element read by `getElem?` is a member of the list. -/
theorem mem_of_getElemQ {β : Type} {l : List β} {i : Nat} {a : β}
    (h : l[i]? = some a) : a ∈ l := by
  induction l generalizing i with
  | nil => simp at h
  | cons x xs ih =>
    cases i with
    | zero =>
      simp only [List.getElem?_cons_zero, Option.some.injEq] at h
      rw [h]
      exact List.mem_cons_self a xs
    | succ j =>
      simp only [List.getElem?_cons_succ] at h
      exact List.mem_cons_of_mem _ (ih h)

/-- Taking `n + m` elements of an append whose first part has length `n`. -/
theorem take_append_add (a b : List Nat) (n m : Nat) (h : a.length = n) :
    (a ++ b).take (n + m) = a ++ b.take m := by
  subst h
  simp [List.take_append_eq_append_take]

/-- The signed subrange `[32, 68)` of a commitment is the fee field followed
by the receipt-id field. -/
theorem commitment_sig_slice (tid feeB ridB sig unlB : List Nat)
    (htid : tid.length = 32) (hfee : feeB.length = 32) (hrid : ridB.length = 4) :
    slice (tid ++ feeB ++ ridB ++ sig ++ unlB) 32 68 = feeB ++ ridB := by
  have hc : tid ++ feeB ++ ridB ++ sig ++ unlB
      = tid ++ (feeB ++ (ridB ++ (sig ++ unlB))) := by
    simp [List.append_assoc]
  show ((tid ++ feeB ++ ridB ++ sig ++ unlB).drop 32).take (68 - 32) = feeB ++ ridB
  rw [hc, drop_append_exact tid _ 32 htid]
  have h36 : (68 - 32 : Nat) = 32 + 4 := by norm_num
  rw [h36, take_append_add feeB _ 32 4 hfee, take_append_exact ridB _ 4 hrid]

/-- Layout of the commitment built by `finishCommit`: the five fields in
order, with the 65-byte signature produced over keccak256 of exactly the
`[32, 68)` subrange of the commitment itself. -/
theorem finishCommit_layout {C : Crypto} {f : Nat} {lb ln : Bool}
    {receipt : PooledReceipt} {t1 : Transfer} {borrow : ReceiptBorrow}
    {t2 : Transfer} (hC : GoodCrypto C)
    (h : finishCommit C f lb ln receipt t1 = some (borrow, t2))
    (htid : t1.vector_transfer_id.length = 32) :
    ∃ recid,
      borrow.commitment.length = BORROWED_RECEIPT_LEN ∧
      slice borrow.commitment 32 68
        = to_be_bytes (receipt.unlocked_fee + f)
          ++ natToBeBytes 4 receipt.receipt_id ∧
      borrow.commitment
        = t1.vector_transfer_id
          ++ to_be_bytes (receipt.unlocked_fee + f)
          ++ natToBeBytes 4 receipt.receipt_id
          ++ ((C.signRecoverable t1.signer
                (C.keccak256 (slice borrow.commitment 32 68))).1 ++ [recid])
          ++ to_be_bytes receipt.unlocked_fee ∧
      normalizeRecoveryId
        (C.signRecoverable t1.signer
          (C.keccak256 (slice borrow.commitment 32 68))).2 = some recid ∧
      ((C.signRecoverable t1.signer
          (C.keccak256 (slice borrow.commitment 32 68))).1).length = 64 := by
  unfold finishCommit at h
  by_cases hov : U256_BOUND ≤ receipt.unlocked_fee + f
  · rw [if_pos hov] at h
    exact absurd h (by simp)
  · rw [if_neg hov] at h
    simp only [] at h
    cases hrec : normalizeRecoveryId (C.signRecoverable t1.signer
        (C.keccak256 (to_be_bytes (receipt.unlocked_fee + f) ++
          natToBeBytes 4 receipt.receipt_id))).2 with
    | none =>
      rw [hrec] at h
      exact absurd h (by simp)
    | some v =>
      rw [hrec] at h
      simp only [Option.some.injEq, Prod.mk.injEq] at h
      obtain ⟨hb, _⟩ := h
      have hbc : borrow.commitment
          = t1.vector_transfer_id ++ to_be_bytes (receipt.unlocked_fee + f) ++
            natToBeBytes 4 receipt.receipt_id ++
            (C.signRecoverable t1.signer
              (C.keccak256 (to_be_bytes (receipt.unlocked_fee + f) ++
                natToBeBytes 4 receipt.receipt_id))).1 ++ [v] ++
            to_be_bytes receipt.unlocked_fee := by
        rw [← hb]
      have hshape : borrow.commitment
          = t1.vector_transfer_id ++ to_be_bytes (receipt.unlocked_fee + f) ++
            natToBeBytes 4 receipt.receipt_id ++
            ((C.signRecoverable t1.signer
              (C.keccak256 (to_be_bytes (receipt.unlocked_fee + f) ++
                natToBeBytes 4 receipt.receipt_id))).1 ++ [v]) ++
            to_be_bytes receipt.unlocked_fee := by
        rw [hbc]
        simp [List.append_assoc]
      have hsl : slice borrow.commitment 32 68
          = to_be_bytes (receipt.unlocked_fee + f)
            ++ natToBeBytes 4 receipt.receipt_id := by
        rw [hshape]
        exact commitment_sig_slice _ _ _ _ _ htid (natToBeBytes_length 32 _)
          (natToBeBytes_length 4 _)
      have hfields := commitment_fields t1.vector_transfer_id
        (to_be_bytes (receipt.unlocked_fee + f))
        (natToBeBytes 4 receipt.receipt_id)
        ((C.signRecoverable t1.signer
          (C.keccak256 (to_be_bytes (receipt.unlocked_fee + f) ++
            natToBeBytes 4 receipt.receipt_id))).1 ++ [v])
        (to_be_bytes receipt.unlocked_fee)
        htid (natToBeBytes_length 32 _) (natToBeBytes_length 4 _)
        (by simp [hC.2.1]) (natToBeBytes_length 32 _)
      refine ⟨v, ?_, hsl, ?_, ?_, ?_⟩
      · rw [hshape]
        exact hfields.1
      · rw [hsl]
        exact hshape
      · rw [hsl]
        exact hrec
      · rw [hsl]
        exact hC.2.1 _ _

/-- Every successful `commitTransfer` goes through `finishCommit` on a
transfer carrying the original signer and transfer id. -/
theorem commitTransfer_finish {C : Crypto} {rand f : Nat} {t : Transfer}
    {borrow : ReceiptBorrow} {t2 : Transfer}
    (h : commitTransfer C rand f t = some (Except.ok (borrow, t2))) :
    ∃ lb ln receipt t1,
      t1.signer = t.signer ∧
      t1.vector_transfer_id = t.vector_transfer_id ∧
      finishCommit C f lb ln receipt t1 = some (borrow, t2) := by
  unfold commitTransfer at h
  by_cases hemp : t.receipt_cache.isEmpty
  · rw [if_pos hemp] at h
    by_cases hmax : t.prev_receipt_id = MAX_RECEIPT_ID
    · rw [if_pos hmax] at h
      exact absurd h (by simp)
    · rw [if_neg hmax] at h
      simp only [] at h
      cases hfc : finishCommit C f
          (decide (t.remaining_collateral < t.low_collateral_threshold))
          (if t.prev_receipt_id = LOW_RECEIPT_CAPACITY then true
            else decide (t.remaining_collateral - f < t.low_collateral_threshold))
          ⟨0, t.prev_receipt_id + 1⟩
          { t with remaining_collateral := t.remaining_collateral - f
                   prev_receipt_id := t.prev_receipt_id + 1 } with
      | none =>
        rw [hfc] at h
        exact absurd h (by simp)
      | some pr =>
        obtain ⟨b2, t2b⟩ := pr
        rw [hfc] at h
        simp only [Option.map_some', Option.some.injEq, Except.ok.injEq,
          Prod.mk.injEq] at h
        obtain ⟨hb, ht2e⟩ := h
        rw [hb, ht2e] at hfc
        exact ⟨_, _, _,
          { t with remaining_collateral := t.remaining_collateral - f
                   prev_receipt_id := t.prev_receipt_id + 1 },
          rfl, rfl, hfc⟩
  · rw [if_neg hemp] at h
    cases hsw : swapRemove t.receipt_cache (rand % t.receipt_cache.length) with
    | none =>
      rw [hsw] at h
      exact absurd h (by simp)
    | some pr =>
      obtain ⟨receipt, cache1⟩ := pr
      rw [hsw] at h
      simp only [] at h
      cases hfc : finishCommit C f
          (decide (t.remaining_collateral < t.low_collateral_threshold))
          (decide (t.remaining_collateral - f < t.low_collateral_threshold))
          receipt
          { t with remaining_collateral := t.remaining_collateral - f
                   receipt_cache := cache1 } with
      | none =>
        rw [hfc] at h
        exact absurd h (by simp)
      | some pr2 =>
        obtain ⟨b2, t2b⟩ := pr2
        rw [hfc] at h
        simp only [Option.map_some', Option.some.injEq, Except.ok.injEq,
          Prod.mk.injEq] at h
        obtain ⟨hb, ht2e⟩ := h
        rw [hb, ht2e] at hfc
        exact ⟨_, _, _,
          { t with remaining_collateral := t.remaining_collateral - f
                   receipt_cache := cache1 },
          rfl, rfl, hfc⟩

/-- A Success release of a well-formed commitment whose fee dominates its
unlocked fee never hits a panic arm, whatever the pool. -/
theorem release_success_some {p : ReceiptPool} {bytes : List Nat}
    (hlen : bytes.length = BORROWED_RECEIPT_LEN)
    (hle : commitmentUnlockedFee bytes ≤ commitmentFee bytes)
    (hfee : commitmentFee bytes < U256_BOUND) :
    release p bytes QueryStatus.Success ≠ none := by
  unfold release
  rw [if_neg (by rw [hlen]; simp)]
  cases hfind : p.transfers.findIdx?
      (fun t => t.vector_transfer_id == commitmentTransferId bytes) with
  | none => simp
  | some i =>
    rcases findIdx?_some_spec hfind with ⟨t0, hget0, _⟩
    simp only []
    rw [hget0]
    simp only []
    rw [if_neg (by omega)]
    have hrt : releaseTransfer t0
        (commitmentFee bytes - commitmentUnlockedFee bytes)
        (commitmentUnlockedFee bytes) (commitmentReceiptId bytes)
        QueryStatus.Success
        = some { t0 with receipt_cache := t0.receipt_cache ++
            [⟨commitmentUnlockedFee bytes +
                (commitmentFee bytes - commitmentUnlockedFee bytes),
              commitmentReceiptId bytes⟩] } := by
      unfold releaseTransfer
      rw [if_neg (by rw [Nat.add_sub_cancel' hle]; omega)]
    rw [hrt]
    simp

/-! ### Counterexample and witness inputs -/

/-- An all-zero 32-byte transfer id. -/
def tid0 : List Nat := List.replicate 32 0

/-- One transfer of collateral 10 installed into the empty pool. -/
def cxp1 : ReceiptPool := add_transfer ⟨[]⟩ 0 10 tid0

/-- First borrow: locked fee 3. -/
def cxr1 : Option (Except BorrowFail (ReceiptBorrow × ReceiptPool)) :=
  commit trivialCrypto 0 cxp1 3

/-- Pool after the first borrow. -/
def cxp2 : ReceiptPool := poolOf cxr1

/-- Commitment emitted by the first borrow. -/
def cxb1 : List Nat := (borrowOf cxr1).commitment

/-- Pool after releasing the first commitment with Success. -/
def cxp3 : ReceiptPool := (release cxp2 cxb1 QueryStatus.Success).getD ⟨[]⟩

/-- Second borrow: locked fee 2, drawn from the recycled receipt. -/
def cxr2 : Option (Except BorrowFail (ReceiptBorrow × ReceiptPool)) :=
  commit trivialCrypto 0 cxp3 2

/-- Configuration reached by install, borrow 3, Success release, borrow 2:
the second commitment is outstanding. -/
def cxcfg : Config := ⟨poolOf cxr2, [(borrowOf cxr2).commitment]⟩

/-- C1 counterexample trace: the spec equation sums `fee − unlocked_fee` over
outstanding commitments, which loses the released-and-reborrowed unlocked
fee. -/
theorem C1_counterexample :
    Reach trivialCrypto cxcfg ∧
    ∃ t ∈ cxcfg.pool.transfers,
      t.remaining_collateral
          + lockedSum (outFor cxcfg.outstanding t.vector_transfer_id)
          + cacheSum t ≠ t.initial_collateral := by
  constructor
  · exact Reach.step (Reach.step (Reach.step (Reach.step Reach.start
      (Step.add _ 0 10 tid0 ⟨cxp1, []⟩ (by decide) (by decide) rfl))
      (Step.commit _ 0 3 (borrowOf cxr1) cxp2 ⟨cxp2, [cxb1]⟩ (by decide) rfl))
      (Step.release _ cxb1 QueryStatus.Success cxp3 ⟨cxp3, []⟩ (by decide)
        (by decide) (by decide)))
      (Step.commit _ 0 2 (borrowOf cxr2) (poolOf cxr2) cxcfg (by decide) rfl)
  · decide

/-- C1 (amended): conservation holds with the full fee field of outstanding
commitments. -/
theorem C1_amended {C : Crypto} {cfg : Config} (hC : GoodCrypto C)
    (h : GReach C cfg) :
    ∀ t ∈ cfg.pool.transfers,
      t.remaining_collateral
          + feeSum (outFor cfg.outstanding t.vector_transfer_id)
          + cacheSum t = t.initial_collateral :=
  fun t ht => ((greach_inv hC h).per t ht).conserve

/-- A guarded-reachable configuration with one outstanding commitment, for
evaluating the invariant theorems on a closed input. -/
theorem greach_cx2 : GReach trivialCrypto ⟨cxp2, [cxb1]⟩ :=
  GReach.step (GReach.step GReach.start
    (GStep.add _ 0 10 tid0 ⟨cxp1, []⟩ (by decide) (by decide) (by decide) rfl))
    (GStep.commit _ 0 3 (borrowOf cxr1) cxp2 ⟨cxp2, [cxb1]⟩ (by decide) rfl)

/-- The transfer installed in the `greach_cx2` configuration, after its one
borrow of fee 3. -/
def cxt2 : Transfer :=
  { initial_collateral := 10, low_collateral_threshold := 2,
    remaining_collateral := 7, prev_receipt_id := 1, receipt_cache := [],
    signer := 0, vector_transfer_id := tid0 }

theorem C1_witness :
    cxt2.remaining_collateral
        + feeSum (outFor [cxb1] cxt2.vector_transfer_id)
        + cacheSum cxt2 = cxt2.initial_collateral :=
  C1_amended trivialCrypto_good greach_cx2 cxt2 (by decide)

/-- A pool whose single transfer has plenty of remaining collateral but an
exhausted receipt-id space. -/
def c2pool : ReceiptPool :=
  ⟨[{ initial_collateral := 5, low_collateral_threshold := 1,
      remaining_collateral := 5, prev_receipt_id := MAX_RECEIPT_ID,
      receipt_cache := [], signer := 0,
      vector_transfer_id := List.replicate 32 0 }]⟩

/-- C2 counterexample: a transfer with `remaining ≥ F` exists, yet commit
still fails with InsufficientCollateral because its ids are exhausted. -/
theorem C2_counterexample :
    (∃ t ∈ c2pool.transfers, 1 ≤ t.remaining_collateral) ∧
    commit trivialCrypto 0 c2pool 1
      = some (Except.error BorrowFail.InsufficientCollateral) := by
  constructor
  · decide
  · decide

/-- C2 (amended): commit fails with InsufficientCollateral iff either no
single transfer covers the fee, or the selected transfer has an empty
receipt cache and an exhausted receipt-id counter. -/
theorem C2_amended {C : Crypto} {rand f : Nat} {p : ReceiptPool} :
    commit C rand p f = some (Except.error BorrowFail.InsufficientCollateral)
      ↔ (∀ t ∈ p.transfers, t.remaining_collateral < f) ∨
        (∃ i t, selectTransfer p f = some (i, t) ∧ t.receipt_cache = [] ∧
          t.prev_receipt_id = MAX_RECEIPT_ID) := by
  rw [commit_error_iff, selectTransfer_none]

/-- C3 counterexample: a Success release recycles the receipt id, so two
successive commitments of the same transfer carry the same id. -/
theorem C3_counterexample :
    isOkCommit cxr1 = true ∧ isOkCommit cxr2 = true ∧
    commitmentReceiptId (borrowOf cxr1).commitment
      = commitmentReceiptId (borrowOf cxr2).commitment := by
  refine ⟨by decide, by decide, by decide⟩

/-- C3 (amended): the receipt ids of the outstanding commitments of a
transfer, together with the ids cached for reuse, are pairwise distinct and
lie in `[1, MAX_RECEIPT_ID]`. -/
theorem C3_amended {C : Crypto} {cfg : Config} (hC : GoodCrypto C)
    (h : GReach C cfg) :
    ∀ t ∈ cfg.pool.transfers,
      (outIds cfg.outstanding t.vector_transfer_id ++ cacheIds t).Nodup ∧
      ∀ r ∈ outIds cfg.outstanding t.vector_transfer_id ++ cacheIds t,
        1 ≤ r ∧ r ≤ MAX_RECEIPT_ID := by
  intro t ht
  have hI := (greach_inv hC h).per t ht
  exact ⟨hI.ids_nodup,
    fun r hr => ⟨hI.ids_pos r hr, le_trans (hI.ids_le_prev r hr) hI.prev_le⟩⟩

theorem C3_witness :
    (outIds [cxb1] cxt2.vector_transfer_id ++ cacheIds cxt2).Nodup ∧
    ∀ r ∈ outIds [cxb1] cxt2.vector_transfer_id ++ cacheIds cxt2,
      1 ≤ r ∧ r ≤ MAX_RECEIPT_ID :=
  C3_amended trivialCrypto_good greach_cx2 cxt2 (by decide)

/-- A commitment-length byte string whose fee field (0) is smaller than its
unlocked-fee field (1): the locked-fee subtraction of release underflows. -/
def c4bytes : List Nat :=
  tid0 ++ to_be_bytes 0 ++ natToBeBytes 4 1 ++ List.replicate 65 0
    ++ to_be_bytes 1

/-- C4 counterexample: a full-length commitment matching an installed
transfer on which release panics (underflow of `fee - unlocked_fee`) instead
of behaving as described. -/
theorem C4_counterexample :
    c4bytes.length = BORROWED_RECEIPT_LEN ∧
    (∃ t ∈ cxp1.transfers,
      t.vector_transfer_id = commitmentTransferId c4bytes) ∧
    release cxp1 c4bytes QueryStatus.Success = none := by
  refine ⟨by decide, by decide, by decide⟩

/-- C4 (amended): when release returns (does not panic), it behaves as the
specification describes: unmatched transfer ids leave the pool unchanged,
Success moves the locked fee into the pushed receipt's unlocked fee, Failure
and Unknown return the locked fee to the remaining collateral and push the
receipt with its original unlocked fee. -/
theorem C4_amended {p : ReceiptPool} {bytes : List Nat} {status : QueryStatus}
    {p' : ReceiptPool} (h : release p bytes status = some p') :
    bytes.length = BORROWED_RECEIPT_LEN ∧
    ((p.transfers.findIdx?
        (fun t => t.vector_transfer_id == commitmentTransferId bytes) = none ∧
      p' = p) ∨
     (∃ i t t1,
       p.transfers.findIdx?
         (fun t => t.vector_transfer_id == commitmentTransferId bytes)
           = some i ∧
       p.transfers[i]? = some t ∧
       t.vector_transfer_id = commitmentTransferId bytes ∧
       p' = ⟨p.transfers.set i t1⟩ ∧
       t1.initial_collateral = t.initial_collateral ∧
       t1.prev_receipt_id = t.prev_receipt_id ∧
       t1.signer = t.signer ∧
       t1.vector_transfer_id = t.vector_transfer_id ∧
       ((status = QueryStatus.Success ∧
          t1.remaining_collateral = t.remaining_collateral ∧
          t1.receipt_cache = t.receipt_cache
            ++ [⟨commitmentFee bytes, commitmentReceiptId bytes⟩]) ∨
        ((status = QueryStatus.Failure ∨ status = QueryStatus.Unknown) ∧
          t1.remaining_collateral = t.remaining_collateral
            + (commitmentFee bytes - commitmentUnlockedFee bytes) ∧
          t1.receipt_cache = t.receipt_cache
            ++ [⟨commitmentUnlockedFee bytes,
                  commitmentReceiptId bytes⟩])))) := by
  rcases release_cases h with ⟨hlen, hcase⟩
  refine ⟨hlen, ?_⟩
  rcases hcase with ⟨hnone, hp⟩ | ⟨i, t, t1, hfind, hget, htid, hle, hrt, hp⟩
  · exact Or.inl ⟨hnone, hp⟩
  · rcases releaseTransfer_spec hrt with ⟨hic, _, hprev, hsg, hvt, hbr⟩
    refine Or.inr ⟨i, t, t1, hfind, hget, htid, hp, hic, hprev, hsg, hvt, ?_⟩
    rcases hbr with ⟨hst, _, hrem, hcache⟩ | ⟨hst, _, hrem, hcache⟩
    · refine Or.inl ⟨hst, hrem, ?_⟩
      rw [hcache, Nat.add_sub_cancel' hle]
    · exact Or.inr ⟨hst, hrem, hcache⟩

/-- A full-length commitment against `cxp1` with fee 2 and unlocked fee 1. -/
def w4bytes : List Nat :=
  tid0 ++ to_be_bytes 2 ++ natToBeBytes 4 1 ++ List.replicate 65 0
    ++ to_be_bytes 1

/-- Pool after releasing `w4bytes` into `cxp1` with status Failure. -/
def w4pool : ReceiptPool :=
  (release cxp1 w4bytes QueryStatus.Failure).getD ⟨[]⟩

theorem C4_witness :
    w4bytes.length = BORROWED_RECEIPT_LEN ∧
    ((cxp1.transfers.findIdx?
        (fun t => t.vector_transfer_id == commitmentTransferId w4bytes) = none ∧
      w4pool = cxp1) ∨
     (∃ i t t1,
       cxp1.transfers.findIdx?
         (fun t => t.vector_transfer_id == commitmentTransferId w4bytes)
           = some i ∧
       cxp1.transfers[i]? = some t ∧
       t.vector_transfer_id = commitmentTransferId w4bytes ∧
       w4pool = ⟨cxp1.transfers.set i t1⟩ ∧
       t1.initial_collateral = t.initial_collateral ∧
       t1.prev_receipt_id = t.prev_receipt_id ∧
       t1.signer = t.signer ∧
       t1.vector_transfer_id = t.vector_transfer_id ∧
       ((QueryStatus.Failure = QueryStatus.Success ∧
          t1.remaining_collateral = t.remaining_collateral ∧
          t1.receipt_cache = t.receipt_cache
            ++ [⟨commitmentFee w4bytes, commitmentReceiptId w4bytes⟩]) ∨
        ((QueryStatus.Failure = QueryStatus.Failure ∨
            QueryStatus.Failure = QueryStatus.Unknown) ∧
          t1.remaining_collateral = t.remaining_collateral
            + (commitmentFee w4bytes - commitmentUnlockedFee w4bytes) ∧
          t1.receipt_cache = t.receipt_cache
            ++ [⟨commitmentUnlockedFee w4bytes,
                  commitmentReceiptId w4bytes⟩])))) :=
  C4_amended (by decide)

/-- A 32-byte transfer id ending in the given byte. -/
def tidN (k : Nat) : List Nat := List.replicate 31 0 ++ [k]

/-- Pool with transfers of collaterals `[4,3,1,2,2,1,3,4]` in installation
order. -/
def c5pool : ReceiptPool :=
  [(4, 1), (3, 2), (1, 3), (2, 4), (2, 5), (1, 6), (3, 7), (4, 8)].foldl
    (fun p ck => add_transfer p 0 ck.1 (tidN ck.2)) ⟨[]⟩

/-- C5: commit selects the eligible transfer of least remaining collateral,
first-installed on ties; on the `[4,3,1,2,2,1,3,4]` pool the fee sequence
`[2,4,3,1,2,3,1,4]` exhausts all collateral and a further borrow of 1
fails. -/
theorem C5_claim :
    (∀ (p : ReceiptPool) (f j : Nat) (u : Transfer),
      selectTransfer p f = some (j, u) →
        p.transfers[j]? = some u ∧ f ≤ u.remaining_collateral ∧
        ∀ k u', p.transfers[k]? = some u' → f ≤ u'.remaining_collateral →
          u.remaining_collateral ≤ u'.remaining_collateral ∧
          (u'.remaining_collateral ≤ u.remaining_collateral → j ≤ k)) ∧
    (commitSeq trivialCrypto c5pool [2, 4, 3, 1, 2, 3, 1, 4]).isSome = true ∧
    commit trivialCrypto 0
        ((commitSeq trivialCrypto c5pool [2, 4, 3, 1, 2, 3, 1, 4]).getD ⟨[]⟩) 1
      = some (Except.error BorrowFail.InsufficientCollateral) := by
  refine ⟨fun p f j u h => selectTransfer_spec h, by decide, by decide⟩

/-- C6: full wire layout of an emitted commitment, with the signature over
keccak256 of exactly the `[32, 68)` fee-and-receipt-id subrange. -/
theorem C6_claim {C : Crypto} {rand f : Nat} {p : ReceiptPool}
    {borrow : ReceiptBorrow} {p2 : ReceiptPool} (hC : GoodCrypto C)
    (h32 : ∀ t ∈ p.transfers, t.vector_transfer_id.length = 32)
    (h : commit C rand p f = some (Except.ok (borrow, p2))) :
    ∃ signer unl rid recid,
      borrow.commitment.length = BORROWED_RECEIPT_LEN ∧
      commitmentFee borrow.commitment = unl + f ∧
      commitmentUnlockedFee borrow.commitment = unl ∧
      slice borrow.commitment 32 68
        = to_be_bytes (unl + f) ++ natToBeBytes 4 rid ∧
      borrow.commitment
        = commitmentTransferId borrow.commitment
          ++ to_be_bytes (unl + f)
          ++ natToBeBytes 4 rid
          ++ ((C.signRecoverable signer
                (C.keccak256 (slice borrow.commitment 32 68))).1 ++ [recid])
          ++ to_be_bytes unl ∧
      ((C.signRecoverable signer
          (C.keccak256 (slice borrow.commitment 32 68))).1 ++ [recid]).length
        = 65 ∧
      normalizeRecoveryId
        (C.signRecoverable signer
          (C.keccak256 (slice borrow.commitment 32 68))).2 = some recid := by
  rcases commit_ok h with ⟨i, t, t2, hsel, hget, hfee, hct, hp⟩
  have hmem : t ∈ p.transfers := mem_of_getElemQ hget
  have htid := h32 t hmem
  rcases commitTransfer_finish hct with ⟨lb, ln, receipt, t1, hsg, hvt, hfc⟩
  have htid1 : t1.vector_transfer_id.length = 32 := by rw [hvt]; exact htid
  rcases finishCommit_layout hC hfc htid1 with
    ⟨recid, hlen, hsl, hlay, hnorm, hsiglen⟩
  have hfields := (finishCommit_ok hC hfc).2.2.2 htid1
  refine ⟨t1.signer, receipt.unlocked_fee, receipt.receipt_id, recid,
    hlen, hfields.2.2.1, hfields.2.2.2.2, hsl, ?_, ?_, hnorm⟩
  · rw [hfields.2.1]
    exact hlay
  · simp [hsiglen]

theorem C6_witness :
    ∃ signer unl rid recid,
      (borrowOf cxr1).commitment.length = BORROWED_RECEIPT_LEN ∧
      commitmentFee (borrowOf cxr1).commitment = unl + 3 ∧
      commitmentUnlockedFee (borrowOf cxr1).commitment = unl ∧
      slice (borrowOf cxr1).commitment 32 68
        = to_be_bytes (unl + 3) ++ natToBeBytes 4 rid ∧
      (borrowOf cxr1).commitment
        = commitmentTransferId (borrowOf cxr1).commitment
          ++ to_be_bytes (unl + 3)
          ++ natToBeBytes 4 rid
          ++ ((trivialCrypto.signRecoverable signer
                (trivialCrypto.keccak256
                  (slice (borrowOf cxr1).commitment 32 68))).1 ++ [recid])
          ++ to_be_bytes unl ∧
      ((trivialCrypto.signRecoverable signer
          (trivialCrypto.keccak256
            (slice (borrowOf cxr1).commitment 32 68))).1 ++ [recid]).length
        = 65 ∧
      normalizeRecoveryId
        (trivialCrypto.signRecoverable signer
          (trivialCrypto.keccak256
            (slice (borrowOf cxr1).commitment 32 68))).2 = some recid :=
  @C6_claim trivialCrypto 0 3 cxp1 (borrowOf cxr1) (poolOf cxr1)
    trivialCrypto_good (by decide) (by decide)

/-- Fresh pool for the warning counterexample: collateral 4, threshold 1. -/
def c7p0 : ReceiptPool := add_transfer ⟨[]⟩ 0 4 tid0

/-- C7 counterexample: the low-collateral warning fires on the first borrow
(threshold crossing), and fires again on the borrow that crosses the
receipt-capacity trigger at LOW_RECEIPT_CAPACITY. -/
theorem C7_counterexample :
    warnOf (commit trivialCrypto 0 c7p0 4) = true ∧
    poolOf (commit trivialCrypto 0 c7p0 4) = c7pool 1 ∧
    warnOf (commit trivialCrypto 0
        (poolCommitIter trivialCrypto 0 169999 (c7pool 1)) 0) = true := by
  refine ⟨by decide, by decide, ?_⟩
  have hiter := c7_iter 169999 1 (by decide)
  have h170 : (1 : Nat) + 169999 = 170000 := by norm_num
  rw [h170] at hiter
  rw [hiter, (c7_step 170000 (by decide)).2]
  decide

/-- C7 (amended): over any trace of operations on a single transfer, the
number of low-collateral warnings is bounded by the warn budget, which never
exceeds two (one threshold edge, one receipt-capacity edge). -/
theorem C7_amended (C : Crypto) (t : Transfer) (ops : List TransferOp) :
    warnCount C t ops ≤ warnBudget t ∧ warnBudget t ≤ 2 :=
  ⟨warnCount_le_budget C ops t, warnBudget_le_two t⟩

/-- A voucher record whose signature bytes do not parse: payment 1,
receipt id 0⋯01, 65 bytes of 0xff. -/
def vrec1 : List Nat :=
  to_be_bytes 1 ++ (List.replicate 14 0 ++ [1]) ++ List.replicate 65 255

/-- Two copies of `vrec1`: equal receipt ids, so not strictly ascending. -/
def c8data : List Nat := vrec1 ++ vrec1

/-- C8 counterexample: receipt ids not strictly ascending, yet the result is
InvalidData (the first record's malformed signature preempts the ordering
error on the second record). -/
theorem C8_counterexample :
    c8data.length % VOUCHER_RECORD_SIZE = 0 ∧
    ascendingFrom (List.replicate 15 0) (voucherIds c8data) = false ∧
    receipts_to_voucher parseFailCrypto (List.replicate 20 0) 0 0 c8data
      = Except.error VoucherError.InvalidData := by
  refine ⟨by decide, by decide, by decide⟩

/-- C8 (amended): when every record passes its per-record cryptographic
checks, the voucher builder returns UnorderedReceipts exactly on inputs
whose receipt ids are not strictly ascending from the all-zero id. -/
theorem C8_amended {C : Crypto} {aid : List Nat} {asg vsg : Nat}
    {data : List Nat} (hlen : data.length % VOUCHER_RECORD_SIZE = 0)
    (hpass : ∀ c ∈ chunksExact VOUCHER_RECORD_SIZE data,
      chunkPasses C aid asg c = true) :
    receipts_to_voucher C aid asg vsg data
        = Except.error VoucherError.UnorderedReceipts ↔
      ascendingFrom (List.replicate 15 0) (voucherIds data) = false :=
  receipts_to_voucher_unordered_iff hlen hpass

/-- A voucher record with payment 7 and a parseable all-zero signature. -/
def vrec2 : List Nat :=
  to_be_bytes 7 ++ (List.replicate 14 0 ++ [1]) ++ List.replicate 65 0

/-- Two copies of `vrec2`: passes the crypto checks, ids not ascending. -/
def c8w : List Nat := vrec2 ++ vrec2

theorem C8_witness :
    c8w.length % VOUCHER_RECORD_SIZE = 0 ∧
    (∀ c ∈ chunksExact VOUCHER_RECORD_SIZE c8w,
      chunkPasses trivialCrypto (List.replicate 20 0) 0 c = true) ∧
    (receipts_to_voucher trivialCrypto (List.replicate 20 0) 0 0 c8w
        = Except.error VoucherError.UnorderedReceipts ↔
      ascendingFrom (List.replicate 15 0) (voucherIds c8w) = false) :=
  ⟨by decide, by decide, C8_amended (by decide) (by decide)⟩

/-- A zero-payment voucher record whose signature bytes do not parse. -/
def vrec0 : List Nat :=
  to_be_bytes 0 ++ (List.replicate 14 0 ++ [1]) ++ List.replicate 65 255

/-- C9 counterexample: the payments sum to zero, but the result is
InvalidData rather than NoValue (the malformed signature is hit first). -/
theorem C9_counterexample :
    voucherTotal vrec0 = 0 ∧
    vrec0.length % VOUCHER_RECORD_SIZE = 0 ∧
    receipts_to_voucher parseFailCrypto (List.replicate 20 0) 0 0 vrec0
      = Except.error VoucherError.InvalidData := by
  refine ⟨by decide, by decide, by decide⟩

/-- C9 (amended): any successful voucher is allocation id (20 bytes), then
the 32-byte big-endian saturating payment total, then the 65-byte signature
(117 bytes in all); and when every record passes its cryptographic checks
and the ids ascend, a zero total yields NoValue. -/
theorem C9_amended {C : Crypto} {aid : List Nat} {asg vsg : Nat}
    {data : List Nat} (hC : GoodCrypto C) (haid : aid.length = 20) :
    (∀ v, receipts_to_voucher C aid asg vsg data = Except.ok v →
      v = aid ++ to_be_bytes (voucherTotal data)
          ++ C.sign65 (aid ++ to_be_bytes (voucherTotal data)) vsg ∧
      v.length = 117) ∧
    (data.length % VOUCHER_RECORD_SIZE = 0 →
      (∀ c ∈ chunksExact VOUCHER_RECORD_SIZE data,
        chunkPasses C aid asg c = true) →
      ascendingFrom (List.replicate 15 0) (voucherIds data) = true →
      voucherTotal data = 0 →
      receipts_to_voucher C aid asg vsg data
        = Except.error VoucherError.NoValue) := by
  constructor
  · intro v hv
    rcases receipts_to_voucher_ok hv with ⟨_, _, hveq⟩
    refine ⟨hveq, ?_⟩
    rw [hveq]
    simp [List.length_append, haid, to_be_bytes, natToBeBytes_length,
      hC.2.2.2]
  · intro hlen hpass hasc hz
    exact receipts_to_voucher_zero hlen hpass hasc hz

theorem C9_witness :
    (∀ v, receipts_to_voucher trivialCrypto (List.replicate 20 0) 0 0 vrec2
        = Except.ok v →
      v = List.replicate 20 0 ++ to_be_bytes (voucherTotal vrec2)
          ++ trivialCrypto.sign65
              (List.replicate 20 0 ++ to_be_bytes (voucherTotal vrec2)) 0 ∧
      v.length = 117) ∧
    (vrec2.length % VOUCHER_RECORD_SIZE = 0 →
      (∀ c ∈ chunksExact VOUCHER_RECORD_SIZE vrec2,
        chunkPasses trivialCrypto (List.replicate 20 0) 0 c = true) →
      ascendingFrom (List.replicate 15 0) (voucherIds vrec2) = true →
      voucherTotal vrec2 = 0 →
      receipts_to_voucher trivialCrypto (List.replicate 20 0) 0 0 vrec2
        = Except.error VoucherError.NoValue) :=
  C9_amended trivialCrypto_good (by decide)

/-- C10: in every emitted commitment the fee field is the unlocked-fee field
plus the requested locked fee, so fee never falls below unlocked fee and a
Success release of the commitment cannot hit a panic arm in any pool. -/
theorem C10_claim {C : Crypto} {rand f : Nat} {p : ReceiptPool}
    {borrow : ReceiptBorrow} {p2 : ReceiptPool} (hC : GoodCrypto C)
    (h32 : ∀ t ∈ p.transfers, t.vector_transfer_id.length = 32)
    (h : commit C rand p f = some (Except.ok (borrow, p2))) :
    commitmentFee borrow.commitment
      = commitmentUnlockedFee borrow.commitment + f ∧
    commitmentUnlockedFee borrow.commitment
      ≤ commitmentFee borrow.commitment ∧
    ∀ q : ReceiptPool, release q borrow.commitment QueryStatus.Success ≠ none := by
  rcases commit_ok h with ⟨i, t, t2, hsel, hget, hfee, hct, hp⟩
  have hmem : t ∈ p.transfers := mem_of_getElemQ hget
  have htid := h32 t hmem
  rcases commitTransfer_ok hC hct with
    ⟨receipt, cache1, _, hov, _, _, _, _, _, hfields⟩
  rcases hfields htid with ⟨hlen, _, hfeeEq, _, hunlEq⟩
  refine ⟨by rw [hfeeEq, hunlEq], by rw [hfeeEq, hunlEq]; omega, fun q => ?_⟩
  exact release_success_some hlen (by rw [hfeeEq, hunlEq]; omega)
    (by rw [hfeeEq]; exact hov)

theorem C10_witness :
    commitmentFee (borrowOf cxr1).commitment
      = commitmentUnlockedFee (borrowOf cxr1).commitment + 3 ∧
    commitmentUnlockedFee (borrowOf cxr1).commitment
      ≤ commitmentFee (borrowOf cxr1).commitment ∧
    ∀ q : ReceiptPool,
      release q (borrowOf cxr1).commitment QueryStatus.Success ≠ none :=
  @C10_claim trivialCrypto 0 3 cxp1 (borrowOf cxr1) (poolOf cxr1)
    trivialCrypto_good (by decide) (by decide)

end Receipts
